import Mathlib

/-!
Verification of the sge-tiers-proxy core against its source.

This file shallowly embeds the parts of the `sgeproxy` Python package that the
verified properties are about:

* `sgeproxy/db.py` — consent resolution (`User.restricted_consent_for`,
  `User.consent_for`), the guarded webservice-call scope
  (`CheckedWebserviceCall`), and subscription-order lookup
  (`WebservicesCallsSubscriptions.find_existing`);
* `sgeproxy/xmpp_interface.py` — `parse_identifier`,
  `GetHistory.handle_submit`'s consent step, and
  `Subscribe.get_or_call_sge_subscription`;
* `sgeproxy/streams.py` — the `R171` and `R50` parsers;
* `sgeproxy/publisher.py` — `StreamsFiles.file_records` key rotation,
  `chunks`, and `RecordsByName`.

Conventions of the embedding:

* Instants are modelled as `Int` minutes (`dt.datetime` values at minute
  resolution; all timestamps in the claims are whole minutes).  `now + 365
  days` is `now + 365 * 1440`.
* Python exceptions are modelled with `Except`; SQL result sets as `List`s in
  row order, `query.first()` as `List.head?`.
* Python `dict`s (which iterate in insertion order) are modelled as
  association lists in insertion order.
* Python's default-argument semantics is modelled faithfully: a default such
  as `call_date=now_local()` (in `User.consent_for` and
  `WebservicesCallsSubscriptions.find_existing`) is evaluated ONCE, when
  `sgeproxy/db.py` is imported.  The embedding threads that captured instant
  as an explicit `moduleLoadTime` parameter and models the argument itself as
  an `Option Int` defaulted with `Option.getD moduleLoadTime`.
-/

namespace SgeProxy

/-- `quoalise.data.Record` as used by `sgeproxy/streams.py` and
`sgeproxy/publisher.py`: a named, timestamped measurement.  `unit` and
`value` are optional because `R171.records` builds accumulator records with
`None` unit/value and fills them in. -/
structure Record where
  name : String
  time : Int
  unit : Option String
  value : Option Int
deriving DecidableEq, Repr

/-- The fields of `sgeproxy.metadata.Metadata` that the embedded code reads
or compares.  The source `Metadata` is a frozen dataclass compared
structurally; for the metadata objects built by the embedded parsers
(`ea_meta`, `pmax_meta`, `pmax_active_meta`, `power_active_raw_meta`, all
keyed by the usage point `prm`) equality of these four fields coincides with
the dataclass equality of the full object. -/
structure Metadata where
  prm : String
  measurementName : String
  unit : String
  samplingInterval : String
deriving DecidableEq, Repr

/-- `MetadataEnedisConsumptionEnergyActiveIndex(prm)`:
unit `Wh`, sampling `P1D` (`sgeproxy/metadata_enedis.py`). -/
def ea_meta (prm : String) : Metadata :=
  { prm := prm, measurementName := "active-energy-index", unit := "Wh",
    samplingInterval := "P1D" }

/-- `MetadataEnedisConsumptionPowerApparentMax(prm)`: unit `VA`, sampling
`P1D`. -/
def pmax_meta (prm : String) : Metadata :=
  { prm := prm, measurementName := "apparent-power", unit := "VA",
    samplingInterval := "P1D" }

/-- `MetadataEnedisConsumptionPowerActiveMax(prm)`: unit `W`, sampling
`P1D`. -/
def pmax_active_meta (prm : String) : Metadata :=
  { prm := prm, measurementName := "active-power", unit := "W",
    samplingInterval := "P1D" }

/-- `MetadataEnedisConsumptionPowerActiveRaw(prm, SamplingInterval("PT30M"))`
as built by `R50.records`. -/
def power_active_raw_meta (prm : String) : Metadata :=
  { prm := prm, measurementName := "active-power", unit := "W",
    samplingInterval := "PT30M" }

/-! ## `sgeproxy/publisher.py`: `chunks` -/

/-- Fuel-driven worker for `chunks`; the fuel is the list length, so with a
positive `n` this performs exactly the iterations of
`for i in range(0, len(lst), n): yield lst[i : i + n]`. -/
def chunksGo {α : Type} (n : Nat) : Nat → List α → List (List α)
  | 0, _ => []
  | _, [] => []
  | fuel + 1, l => l.take n :: chunksGo n fuel (l.drop n)

/-- `publisher.chunks(lst, n)`: successive `n`-sized chunks of `lst`. -/
def chunks {α : Type} (lst : List α) (n : Nat) : List (List α) :=
  chunksGo n lst.length lst

theorem chunksGo_flatten {α : Type} (n : Nat) (hn : 0 < n) :
    ∀ (fuel : Nat) (l : List α), l.length ≤ fuel →
      (chunksGo n fuel l).flatten = l := by
  intro fuel
  induction fuel with
  | zero =>
    intro l hl
    have : l = [] := List.length_eq_zero.mp (Nat.le_zero.mp hl)
    subst this
    rfl
  | succ fuel ih =>
    intro l hl
    cases l with
    | nil => rfl
    | cons a t =>
      have hdrop : (List.drop n (a :: t)).length ≤ fuel := by
        rw [List.length_drop]
        have h1 : (a :: t).length - n ≤ (a :: t).length - 1 :=
          Nat.sub_le_sub_left hn _
        have h2 : (a :: t).length - 1 ≤ fuel := by
          simp only [List.length_cons, Nat.add_sub_cancel]
          exact Nat.le_of_succ_le_succ hl
        exact le_trans h1 h2
      simp only [chunksGo, List.flatten, ih _ hdrop]
      exact List.take_append_drop n (a :: t)

/-- Concatenating the chunks gives back the original list (positive chunk
size). -/
theorem chunks_flatten {α : Type} (l : List α) (n : Nat) (hn : 0 < n) :
    (chunks l n).flatten = l :=
  chunksGo_flatten n hn l.length l le_rfl

/-! ## `sgeproxy/publisher.py`: `RecordsByName`

`RecordsByName.records` is a Python dict `name -> dict metadata -> list of
records`.  Python dicts iterate in insertion order, so both levels are
modelled as association lists in insertion order, with new keys appended at
the end. -/

/-- Append `r` to the entry of metadata `m` in an (insertion-ordered)
association list, creating the entry at the end if absent — the body of
`RecordsByName.add` below the name lookup. -/
def addToMetaList (m : Metadata) (r : Record) :
    List (Metadata × List Record) → List (Metadata × List Record)
  | [] => [(m, [r])]
  | (m', rs) :: rest =>
    if m' = m then (m', rs ++ [r]) :: rest
    else (m', rs) :: addToMetaList m r rest

/-- The state of a `publisher.RecordsByName` instance. -/
structure RecordsByName where
  records : List (String × List (Metadata × List Record))
deriving DecidableEq, Repr

/-- `RecordsByName()`: empty state. -/
def RecordsByName.empty : RecordsByName := ⟨[]⟩

/-- Worker for `RecordsByName.add`: file the record under `r.name` in the
outer (name-keyed) association list, appending a new name entry at the end if
absent. -/
def addGo (m : Metadata) (r : Record) :
    List (String × List (Metadata × List Record)) →
      List (String × List (Metadata × List Record))
  | [] => [(r.name, [(m, [r])])]
  | (n, ml) :: rest =>
    if n = r.name then (n, addToMetaList m r ml) :: rest
    else (n, ml) :: addGo m r rest

/-- `RecordsByName.add(metadata, record)`: file the record under
`record.name`, then under its metadata, appending to the per-(name, metadata)
list. -/
def RecordsByName.add (s : RecordsByName) (m : Metadata) (r : Record) :
    RecordsByName :=
  ⟨addGo m r s.records⟩

/-- Build a `RecordsByName` from a sequence of `add` calls in order. -/
def RecordsByName.build (adds : List (Metadata × Record)) : RecordsByName :=
  adds.foldl (fun s p => s.add p.1 p.2) RecordsByName.empty

/-- Python's `s.startswith(pre)`: `pre` is a prefix of `s`.  (Defined on the
character lists so that concrete instances evaluate inside the kernel.) -/
def startsWithPy (s pre : String) : Bool :=
  decide (s.data.take pre.data.length = pre.data)

/-- Append `rs` to the entry of `m` in `all_records_by_meta` (create the
entry at the end if absent) — one step of the grouping loop of
`RecordsByName.get`. -/
def extendMeta (m : Metadata) (rs : List Record) :
    List (Metadata × List Record) → List (Metadata × List Record)
  | [] => [(m, rs)]
  | (m', rs') :: rest =>
    if m' = m then (m', rs' ++ rs) :: rest
    else (m', rs') :: extendMeta m rs rest

/-- The two nested grouping loops of `RecordsByName.get`: fold every
`(name, meta, records)` group whose name starts with `pre` into
`all_records_by_meta`. -/
def buildAll (pre : String)
    (records : List (String × List (Metadata × List Record)))
    (acc : List (Metadata × List Record)) : List (Metadata × List Record) :=
  match records with
  | [] => acc
  | (n, ml) :: rest =>
    buildAll pre rest
      (ml.foldl
        (fun acc' p =>
          if startsWithPy n pre then extendMeta p.1 p.2 acc' else acc')
        acc)

/-- `RecordsByName.get(prefix, chunk_size)`: group matching records by
metadata, then yield each group, split into `chunk_size`-sized chunks when
`chunk_size` is non-zero. -/
def RecordsByName.get (s : RecordsByName) (pre : String) (chunkSize : Nat) :
    List (Metadata × List Record) :=
  let allRecordsByMeta := buildAll pre s.records []
  allRecordsByMeta.flatMap fun p =>
    if chunkSize ≠ 0 then (chunks p.2 chunkSize).map (fun c => (p.1, c))
    else [(p.1, p.2)]

/-- List-valued association lookup (`[]` when the key is absent), used to
state properties of the grouped structures. -/
def lookupL (m : Metadata) : List (Metadata × List Record) → List Record
  | [] => []
  | (m', rs) :: rest => if m' = m then rs else lookupL m rest

/-- Worker for `RecordsByName.stored`: first matching name entry's records
under metadata `m`. -/
def storedGo (n : String) (m : Metadata) :
    List (String × List (Metadata × List Record)) → List Record
  | [] => []
  | (n', ml) :: rest => if n' = n then lookupL m ml else storedGo n m rest

/-- Records stored by a `RecordsByName` under name `n` and metadata `m`, in
storage order. -/
def RecordsByName.stored (s : RecordsByName) (n : String) (m : Metadata) :
    List Record :=
  storedGo n m s.records

/-- All the records stored under metadata `m` across an association list,
concatenated in list order (used to characterise the grouping performed by
`RecordsByName.get`). -/
def flatMapSelect (m : Metadata) (ml : List (Metadata × List Record)) :
    List Record :=
  ml.flatMap (fun p => if p.1 = m then p.2 else [])

theorem lookupL_addToMetaList (m' m : Metadata) (r : Record) :
    ∀ ml, lookupL m' (addToMetaList m r ml)
      = lookupL m' ml ++ (if m' = m then [r] else []) := by
  intro ml
  induction ml with
  | nil =>
    by_cases h : m' = m
    · subst h; simp [addToMetaList, lookupL]
    · simp [addToMetaList, lookupL, h, mt Eq.symm h]
  | cons q rest ih =>
    obtain ⟨m'', rs⟩ := q
    by_cases h1 : m'' = m
    · subst h1
      by_cases h2 : m'' = m'
      · subst h2; simp [addToMetaList, lookupL]
      · simp [addToMetaList, lookupL, h2, mt Eq.symm h2]
    · by_cases h2 : m'' = m'
      · subst h2
        have hne : ¬m'' = m := h1
        simp [addToMetaList, lookupL, hne, hne]
      · simp [addToMetaList, lookupL, h1, h2, ih]

theorem lookupL_extendMeta (m' m : Metadata) (rs : List Record) :
    ∀ acc, lookupL m' (extendMeta m rs acc)
      = lookupL m' acc ++ (if m' = m then rs else []) := by
  intro acc
  induction acc with
  | nil =>
    by_cases h : m' = m
    · subst h; simp [extendMeta, lookupL]
    · simp [extendMeta, lookupL, h, mt Eq.symm h]
  | cons q rest ih =>
    obtain ⟨m'', rs'⟩ := q
    by_cases h1 : m'' = m
    · subst h1
      by_cases h2 : m'' = m'
      · subst h2; simp [extendMeta, lookupL]
      · simp [extendMeta, lookupL, h2, mt Eq.symm h2]
    · by_cases h2 : m'' = m'
      · subst h2
        have hne : ¬m'' = m := h1
        simp [extendMeta, lookupL, hne]
      · simp [extendMeta, lookupL, h1, h2, ih]

theorem lookupL_foldExtend (m : Metadata) (cond : Bool) :
    ∀ (ml : List (Metadata × List Record)) acc,
      lookupL m (ml.foldl
          (fun acc' p => if cond = true then extendMeta p.1 p.2 acc' else acc')
          acc)
        = lookupL m acc ++ (if cond = true then flatMapSelect m ml else []) := by
  intro ml
  induction ml with
  | nil => intro acc; cases cond <;> simp [flatMapSelect]
  | cons p rest ih =>
    intro acc
    cases cond with
    | false => simpa using ih acc
    | true =>
      rw [List.foldl_cons, if_pos rfl, ih, lookupL_extendMeta]
      simp only [flatMapSelect, List.flatMap_cons, if_pos rfl,
        List.append_assoc]
      by_cases h : p.1 = m
      · rw [if_pos h.symm, if_pos h]; simp
      · rw [if_neg (mt Eq.symm h), if_neg h, List.nil_append]; simp

theorem lookupL_buildAll (m : Metadata) (pre : String) :
    ∀ (records : List (String × List (Metadata × List Record))) acc,
      lookupL m (buildAll pre records acc)
        = lookupL m acc
          ++ records.flatMap
            (fun p => if startsWithPy p.1 pre then flatMapSelect m p.2 else []) := by
  intro records
  induction records with
  | nil => intro acc; simp [buildAll]
  | cons p rest ih =>
    intro acc
    obtain ⟨n, ml⟩ := p
    simp only [buildAll, ih, List.flatMap_cons]
    have := lookupL_foldExtend m (startsWithPy n pre) ml acc
    by_cases h : startsWithPy n pre <;>
      simp_all [List.append_assoc]

/-- With `chunk_size = 0`, `RecordsByName.get` is the grouped map itself. -/
theorem get_zero (s : RecordsByName) (pre : String) :
    RecordsByName.get s pre 0 = buildAll pre s.records [] := by
  simp only [RecordsByName.get]
  induction buildAll pre s.records [] with
  | nil => rfl
  | cons p rest ih => simpa using ih

theorem storedGo_addGo (n : String) (m m₀ : Metadata) (r₀ : Record) :
    ∀ l, storedGo n m (addGo m₀ r₀ l)
      = storedGo n m l ++ (if n = r₀.name ∧ m = m₀ then [r₀] else []) := by
  intro l
  induction l with
  | nil =>
    by_cases hn : n = r₀.name
    · subst hn
      by_cases hm : m = m₀
      · subst hm; simp [addGo, storedGo, lookupL]
      · simp [addGo, storedGo, lookupL, hm, mt Eq.symm hm]
    · simp [addGo, storedGo, hn, mt Eq.symm hn]
  | cons p rest ih =>
    obtain ⟨n', ml⟩ := p
    simp only [addGo]
    by_cases h1 : n' = r₀.name
    · rw [if_pos h1]
      simp only [storedGo]
      by_cases h2 : n' = n
      · rw [if_pos h2, if_pos h2, lookupL_addToMetaList]
        have hnr : n = r₀.name := h2.symm.trans h1
        by_cases hm : m = m₀ <;> simp [hm, hnr]
      · rw [if_neg h2, if_neg h2]
        have hno : ¬(n = r₀.name ∧ m = m₀) :=
          fun hc => h2 (h1.trans hc.1.symm)
        simp [hno]
    · rw [if_neg h1]
      simp only [storedGo]
      by_cases h2 : n' = n
      · rw [if_pos h2, if_pos h2]
        have hno : ¬(n = r₀.name ∧ m = m₀) :=
          fun hc => h1 (h2.trans hc.1)
        simp [hno]
      · rw [if_neg h2, if_neg h2]; exact ih

theorem RecordsByName.build_append (adds : List (Metadata × Record))
    (p : Metadata × Record) :
    RecordsByName.build (adds ++ [p]) = (RecordsByName.build adds).add p.1 p.2 := by
  simp [RecordsByName.build, List.foldl_append]

/-- The records a `RecordsByName` built from a sequence of `add` calls holds
under `(name, metadata)` are exactly the records added with that name and
metadata, in add order. -/
theorem stored_build (adds : List (Metadata × Record)) (n : String)
    (m : Metadata) :
    (RecordsByName.build adds).stored n m
      = (adds.filter (fun p => decide (p.1 = m ∧ p.2.name = n))).map Prod.snd := by
  induction adds using List.reverseRecOn with
  | nil => rfl
  | append_singleton as p ih =>
    rw [RecordsByName.build_append]
    show storedGo n m (addGo p.1 p.2 (RecordsByName.build as).records) = _
    have ih' : storedGo n m (RecordsByName.build as).records
        = (as.filter (fun q => decide (q.1 = m ∧ q.2.name = n))).map Prod.snd := ih
    have htail : (if n = p.2.name ∧ m = p.1 then [p.2] else [])
        = (List.filter (fun q => decide (q.1 = m ∧ q.2.name = n)) [p]).map
            Prod.snd := by
      by_cases hc : p.1 = m ∧ p.2.name = n
      · rw [if_pos ⟨hc.2.symm, hc.1.symm⟩]
        simp [hc.1, hc.2]
      · rw [if_neg (fun hh => hc ⟨hh.2.symm, hh.1.symm⟩)]
        simp [hc]
    rw [storedGo_addGo, List.filter_append, List.map_append, ih', htail]

/-- Well-formedness of a `RecordsByName` state: every stored record is filed
under its own name, and both association-list levels have distinct keys.
Holds for every state reachable through `add` from the empty state. -/
def RecordsByName.Wf (s : RecordsByName) : Prop :=
  (∀ p ∈ s.records,
      (∀ q ∈ p.2, ∀ r ∈ q.2, r.name = p.1) ∧ (p.2.map Prod.fst).Nodup)
    ∧ (s.records.map Prod.fst).Nodup

theorem addToMetaList_fst (m : Metadata) (r : Record) :
    ∀ ml, (addToMetaList m r ml).map Prod.fst
      = if m ∈ ml.map Prod.fst then ml.map Prod.fst
        else ml.map Prod.fst ++ [m] := by
  intro ml
  induction ml with
  | nil => simp [addToMetaList]
  | cons q rest ih =>
    obtain ⟨m', rs⟩ := q
    by_cases h : m' = m
    · subst h; simp [addToMetaList]
    · simp only [addToMetaList, if_neg h, List.map_cons, ih]
      by_cases hmem : m ∈ rest.map Prod.fst
      · rw [if_pos hmem, if_pos (List.mem_cons_of_mem _ hmem)]
      · have hnotc : ¬ m ∈ m' :: rest.map Prod.fst := by
          intro hm
          rcases List.mem_cons.mp hm with h' | h'
          · exact h h'.symm
          · exact hmem h'
        rw [if_neg hmem, if_neg hnotc]
        simp

theorem addToMetaList_mem (m : Metadata) (r : Record) :
    ∀ ml q, q ∈ addToMetaList m r ml → ∀ x ∈ q.2,
      (∃ q' ∈ ml, x ∈ q'.2) ∨ x = r := by
  intro ml
  induction ml with
  | nil =>
    intro q hq x hx
    simp only [addToMetaList, List.mem_singleton] at hq
    subst hq
    simp only [List.mem_singleton] at hx
    exact Or.inr hx
  | cons p rest ih =>
    intro q hq x hx
    obtain ⟨m', rs⟩ := p
    simp only [addToMetaList] at hq
    by_cases h : m' = m
    · rw [if_pos h] at hq
      rcases List.mem_cons.mp hq with hq | hq
      · subst hq
        simp only [List.mem_append, List.mem_singleton] at hx
        rcases hx with hx | hx
        · exact Or.inl ⟨(m', rs), List.mem_cons_self _ _, hx⟩
        · exact Or.inr hx
      · exact Or.inl ⟨q, List.mem_cons_of_mem _ hq, hx⟩
    · rw [if_neg h] at hq
      rcases List.mem_cons.mp hq with hq | hq
      · subst hq
        exact Or.inl ⟨(m', rs), List.mem_cons_self _ _, hx⟩
      · rcases ih q hq x hx with ⟨q', hq', hx'⟩ | hr
        · exact Or.inl ⟨q', List.mem_cons_of_mem _ hq', hx'⟩
        · exact Or.inr hr

theorem addGo_fst (m : Metadata) (r : Record) :
    ∀ l, (addGo m r l).map Prod.fst
      = if r.name ∈ l.map Prod.fst then l.map Prod.fst
        else l.map Prod.fst ++ [r.name] := by
  intro l
  induction l with
  | nil => simp [addGo]
  | cons p rest ih =>
    obtain ⟨n', ml⟩ := p
    by_cases h : n' = r.name
    · subst h; simp [addGo]
    · simp only [addGo, if_neg h, List.map_cons, ih]
      by_cases hmem : r.name ∈ rest.map Prod.fst
      · rw [if_pos hmem, if_pos (List.mem_cons_of_mem _ hmem)]
      · have hnotc : ¬ r.name ∈ n' :: rest.map Prod.fst := by
          intro hm
          rcases List.mem_cons.mp hm with h' | h'
          · exact h h'.symm
          · exact hmem h'
        rw [if_neg hmem, if_neg hnotc]
        simp

theorem addGo_cases (m : Metadata) (r : Record) :
    ∀ l p, p ∈ addGo m r l →
      p ∈ l
      ∨ (∃ ml, (p.1, ml) ∈ l ∧ p.1 = r.name ∧ p.2 = addToMetaList m r ml)
      ∨ p = (r.name, [(m, [r])]) := by
  intro l
  induction l with
  | nil =>
    intro p hp
    simp only [addGo, List.mem_singleton] at hp
    exact Or.inr (Or.inr hp)
  | cons q rest ih =>
    intro p hp
    obtain ⟨n', ml⟩ := q
    by_cases h : n' = r.name
    · simp only [addGo, if_pos h, List.mem_cons] at hp
      rcases hp with hp | hp
      · subst hp
        exact Or.inr (Or.inl ⟨ml, List.mem_cons_self _ _, h, rfl⟩)
      · exact Or.inl (List.mem_cons_of_mem _ hp)
    · simp only [addGo, if_neg h, List.mem_cons] at hp
      rcases hp with hp | hp
      · subst hp; exact Or.inl (List.mem_cons_self _ _)
      · rcases ih p hp with hin | ⟨ml', hml', hn', hupd⟩ | hnew
        · exact Or.inl (List.mem_cons_of_mem _ hin)
        · exact Or.inr (Or.inl ⟨ml', List.mem_cons_of_mem _ hml', hn', hupd⟩)
        · exact Or.inr (Or.inr hnew)

theorem RecordsByName.Wf_empty : RecordsByName.empty.Wf := by
  constructor
  · intro p hp; cases hp
  · simp [RecordsByName.empty]

theorem RecordsByName.Wf_add (s : RecordsByName) (m : Metadata) (r : Record)
    (h : s.Wf) : (s.add m r).Wf := by
  obtain ⟨h1, h2⟩ := h
  constructor
  · intro p hp
    rcases addGo_cases m r s.records p hp with hin | ⟨ml, hml, hn, hupd⟩ | hnew
    · exact h1 p hin
    · obtain ⟨ha, hb⟩ := h1 (p.1, ml) hml
      constructor
      · intro q hq x hx
        rw [hupd] at hq
        rcases addToMetaList_mem m r ml q hq x hx with ⟨q', hq', hx'⟩ | hr
        · exact ha q' hq' x hx'
        · rw [hr, hn]
      · rw [hupd, addToMetaList_fst]
        by_cases hmem : m ∈ ml.map Prod.fst
        · simpa [hmem] using hb
        · rw [if_neg hmem]
          simp only [List.nodup_append, List.nodup_singleton]
          exact ⟨hb, trivial, by simpa [List.disjoint_singleton] using hmem⟩
    · rw [hnew]
      constructor
      · intro q hq x hx
        simp only [List.mem_singleton] at hq
        subst hq
        simp only [List.mem_singleton] at hx
        subst hx
        rfl
      · simp
  · show ((addGo m r s.records).map Prod.fst).Nodup
    rw [addGo_fst]
    by_cases hmem : r.name ∈ s.records.map Prod.fst
    · simpa [hmem] using h2
    · rw [if_neg hmem]
      simp only [List.nodup_append, List.nodup_singleton]
      exact ⟨h2, trivial, by simpa [List.disjoint_singleton] using hmem⟩

theorem RecordsByName.Wf_build (adds : List (Metadata × Record)) :
    (RecordsByName.build adds).Wf := by
  induction adds using List.reverseRecOn with
  | nil => exact RecordsByName.Wf_empty
  | append_singleton as p ih =>
    rw [RecordsByName.build_append]
    exact RecordsByName.Wf_add _ _ _ ih

theorem mem_flatMapSelect {x : Record} {m : Metadata}
    {ml : List (Metadata × List Record)} (hx : x ∈ flatMapSelect m ml) :
    ∃ q ∈ ml, x ∈ q.2 := by
  simp only [flatMapSelect, List.mem_flatMap] at hx
  obtain ⟨q, hq, hxq⟩ := hx
  by_cases h : q.1 = m
  · rw [if_pos h] at hxq
    exact ⟨q, hq, hxq⟩
  · rw [if_neg h] at hxq
    cases hxq

theorem flatMapSelect_eq_nil {m : Metadata} {ml : List (Metadata × List Record)}
    (h : ¬ m ∈ ml.map Prod.fst) : flatMapSelect m ml = [] := by
  induction ml with
  | nil => rfl
  | cons q rest ih =>
    have h1 : ¬ q.1 = m := fun hh => h (by simp [hh])
    have h2 : ¬ m ∈ rest.map Prod.fst := fun hh => h (by simp [hh])
    simp only [flatMapSelect, List.flatMap_cons, if_neg h1, List.nil_append]
    exact ih h2

theorem flatMapSelect_eq_lookupL {m : Metadata}
    {ml : List (Metadata × List Record)} (h : (ml.map Prod.fst).Nodup) :
    flatMapSelect m ml = lookupL m ml := by
  induction ml with
  | nil => rfl
  | cons q rest ih =>
    obtain ⟨m', rs⟩ := q
    simp only [List.map_cons, List.nodup_cons] at h
    simp only [flatMapSelect, List.flatMap_cons, lookupL]
    by_cases hm : m' = m
    · rw [if_pos hm, if_pos hm]
      have : flatMapSelect m rest = [] :=
        flatMapSelect_eq_nil (by rw [← hm]; exact h.1)
      simp only [flatMapSelect] at this
      rw [this, List.append_nil]
    · rw [if_neg hm, if_neg hm, List.nil_append]
      exact ih h.2

/-- The grouped `m`-entry that `RecordsByName.get` builds, restricted to one
record name `n`, is the per-`(name, metadata)` stored list. -/
theorem flatMap_filter_name (pre n : String) (m : Metadata)
    (hpre : startsWithPy n pre = true) :
    ∀ (l : List (String × List (Metadata × List Record))),
      (∀ p ∈ l,
          (∀ q ∈ p.2, ∀ r ∈ q.2, r.name = p.1) ∧ (p.2.map Prod.fst).Nodup) →
      (l.map Prod.fst).Nodup →
      ((l.flatMap
          (fun p => if startsWithPy p.1 pre then flatMapSelect m p.2 else [])
        ).filter (fun r => decide (r.name = n)))
        = storedGo n m l := by
  intro l
  induction l with
  | nil => intro _ _; rfl
  | cons p rest ih =>
    intro hwf hnd
    obtain ⟨n', ml⟩ := p
    simp only [List.map_cons, List.nodup_cons] at hnd
    have hhead := hwf (n', ml) (List.mem_cons_self _ _)
    have htail : ∀ p ∈ rest,
        (∀ q ∈ p.2, ∀ r ∈ q.2, r.name = p.1) ∧ (p.2.map Prod.fst).Nodup :=
      fun p hp => hwf p (List.mem_cons_of_mem _ hp)
    simp only [List.flatMap_cons, List.filter_append, storedGo]
    by_cases h2 : n' = n
    · subst h2
      rw [if_pos rfl, if_pos hpre]
      have hkeep : (flatMapSelect m ml).filter (fun r => decide (r.name = n')) =
          flatMapSelect m ml := by
        apply List.filter_eq_self.mpr
        intro r hr
        obtain ⟨q, hq, hrq⟩ := mem_flatMapSelect hr
        simp [hhead.1 q hq r hrq]
      have hrestnil :
          ((rest.flatMap
              (fun p => if startsWithPy p.1 pre then flatMapSelect m p.2 else [])
            ).filter (fun r => decide (r.name = n'))) = [] := by
        apply List.filter_eq_nil.mpr
        intro r hr
        simp only [List.mem_flatMap] at hr
        obtain ⟨p, hp, hrp⟩ := hr
        by_cases hs : startsWithPy p.1 pre
        · rw [if_pos hs] at hrp
          obtain ⟨q, hq, hrq⟩ := mem_flatMapSelect hrp
          have hname : r.name = p.1 := (htail p hp).1 q hq r hrq
          have hne : p.1 ≠ n' := by
            intro hh
            exact hnd.1 (hh ▸ (List.mem_map_of_mem Prod.fst hp))
          simp [hname, hne]
        · rw [if_neg hs] at hrp
          cases hrp
      rw [hkeep, hrestnil, List.append_nil,
        flatMapSelect_eq_lookupL hhead.2]
    · rw [if_neg h2]
      have hheadnil :
          ((if startsWithPy n' pre then flatMapSelect m ml else []).filter
            (fun r => decide (r.name = n))) = [] := by
        by_cases hs : startsWithPy n' pre
        · rw [if_pos hs]
          apply List.filter_eq_nil.mpr
          intro r hr
          obtain ⟨q, hq, hrq⟩ := mem_flatMapSelect hr
          simp [hhead.1 q hq r hrq, h2]
        · rw [if_neg hs]; rfl
      rw [hheadnil, List.nil_append]
      exact ih htail hnd.2

/-- Within the metadata group `m` of `RecordsByName.get`, the records of one
name `n` are exactly the records added with `(m, n)`, in add order. -/
theorem get_name_order (adds : List (Metadata × Record)) (pre n : String)
    (m : Metadata) (hpre : startsWithPy n pre = true) :
    ((lookupL m (RecordsByName.get (RecordsByName.build adds) pre 0)).filter
        (fun r => decide (r.name = n)))
      = (adds.filter (fun p => decide (p.1 = m ∧ p.2.name = n))).map Prod.snd := by
  obtain ⟨hw1, hw2⟩ := RecordsByName.Wf_build adds
  rw [get_zero, lookupL_buildAll]
  simp only [lookupL, List.nil_append]
  rw [flatMap_filter_name pre n m hpre _ hw1 hw2]
  exact stored_build adds n m

/-- Chunking does not change the record sequence delivered for the matching
groups: flattening the chunked `get` output gives the unchunked output. -/
theorem get_flatMap_snd (s : RecordsByName) (pre : String) (k : Nat)
    (hk : k ≠ 0) :
    (RecordsByName.get s pre k).flatMap Prod.snd
      = (RecordsByName.get s pre 0).flatMap Prod.snd := by
  rw [get_zero]
  simp only [RecordsByName.get, if_pos hk]
  induction buildAll pre s.records [] with
  | nil => rfl
  | cons p rest ih =>
    simp only [List.flatMap_cons, List.flatMap_append, ih]
    congr 1
    have : ((chunks p.2 k).map (fun c => (p.1, c))).flatMap Prod.snd
        = (chunks p.2 k).flatten := by
      induction chunks p.2 k with
      | nil => rfl
      | cons c cs ihc => simp only [List.map_cons, List.flatMap_cons, ihc]; rfl
    rw [this, chunks_flatten p.2 k (Nat.pos_of_ne_zero hk)]

/-- C9, counterexample: the claim "within one metadata group,
`RecordsByName.get` yields records in the order they were added" fails.
Adding, under one metadata, records named `a`, `b`, `a` (in that order)
yields the group `[a₁, a₃, b₂]`: `get` groups by record name first, so the
records of name `b` are moved after both records of name `a`, which is not
the add order `[a₁, b₂, a₃]`. -/
theorem C9_counterexample :
    RecordsByName.get
        (RecordsByName.build
          [(ea_meta "p", ⟨"a", 1, none, none⟩),
           (ea_meta "p", ⟨"b", 2, none, none⟩),
           (ea_meta "p", ⟨"a", 3, none, none⟩)]) "" 0
      = [(ea_meta "p",
          [⟨"a", 1, none, none⟩, ⟨"a", 3, none, none⟩, ⟨"b", 2, none, none⟩])]
    ∧ ([(⟨"a", 1, none, none⟩ : Record), ⟨"a", 3, none, none⟩,
        ⟨"b", 2, none, none⟩]
      ≠ [⟨"a", 1, none, none⟩, ⟨"b", 2, none, none⟩, ⟨"a", 3, none, none⟩]) := by
  constructor
  · rfl
  · decide

/-- C9 (amended): for every list of records and positive chunk size,
concatenating the chunks produced by `chunks` yields exactly the original
list; chunking never reorders the records `RecordsByName.get` delivers for
the matching groups (flattening the chunked output equals the unchunked
output); and within one metadata group, `get` keeps the records of each
single record name in the order they were added — the group is ordered by
record name (first-add order of names) rather than by global add order. -/
theorem C9_chunks_and_group_order :
    (∀ (l : List Record) (k : Nat), 0 < k → (chunks l k).flatten = l)
    ∧ (∀ (s : RecordsByName) (pre : String) (k : Nat), k ≠ 0 →
        (RecordsByName.get s pre k).flatMap Prod.snd
          = (RecordsByName.get s pre 0).flatMap Prod.snd)
    ∧ (∀ (adds : List (Metadata × Record)) (pre n : String) (m : Metadata),
        startsWithPy n pre = true →
        ((lookupL m
            (RecordsByName.get (RecordsByName.build adds) pre 0)).filter
          (fun r => decide (r.name = n)))
          = (adds.filter
              (fun p => decide (p.1 = m ∧ p.2.name = n))).map Prod.snd) :=
  ⟨fun l k hk => chunks_flatten l k hk,
   fun s pre k hk => get_flatMap_snd s pre k hk,
   fun adds pre n m hpre => get_name_order adds pre n m hpre⟩

/-- Witness for C9 at concrete inputs. -/
theorem C9_witness :
    (chunks ([⟨"a", 1, none, none⟩, ⟨"a", 2, none, none⟩,
        ⟨"a", 3, none, none⟩] : List Record) 2).flatten
      = [⟨"a", 1, none, none⟩, ⟨"a", 2, none, none⟩, ⟨"a", 3, none, none⟩]
    ∧ ((lookupL (ea_meta "p")
          (RecordsByName.get
            (RecordsByName.build
              [(ea_meta "p", ⟨"a", 1, none, none⟩),
               (ea_meta "p", ⟨"b", 2, none, none⟩)]) "" 0)).filter
        (fun r => decide (r.name = "b")))
      = [⟨"b", 2, none, none⟩] :=
  ⟨C9_chunks_and_group_order.1 _ 2 (by decide),
   by
    have h := C9_chunks_and_group_order.2.2
      [(ea_meta "p", ⟨"a", 1, none, none⟩),
       (ea_meta "p", ⟨"b", 2, none, none⟩)] "" "b" (ea_meta "p") (by decide)
    rw [h]
    rfl⟩

/-! ## `sgeproxy/xmpp_interface.py`: `parse_identifier`

`parse_identifier` matches, with Python `re.match` semantics,

* `^urn:dev:prm:(\d{14})_(.*)$`, returning `(usage_point_id, series_name)`;
* else `^urn:dev:prm:(\d{14})$`, returning `(usage_point_id, None)`;
* else raises `XMPPError(condition="bad-request")`.

Python specifics modelled here: `.` does not match a newline, and `$` (no
`re.MULTILINE`) matches at the end of the string or just before a final
newline.  `\d` is modelled as an ASCII digit (the Python class also accepts
non-ASCII Unicode digits; the identifiers in the claims are ASCII). -/

/-- The characters of the literal prefix `urn:dev:prm:`. -/
def urnPre : List Char := "urn:dev:prm:".data

/-- Match `(.*)$` against the remaining input (Python semantics: greedy `.`
without newlines, `$` at end or before one final newline); returns the
captured group. -/
def matchDotStarEnd (t : List Char) : Option (List Char) :=
  if t.all (fun c => c ≠ '\n') then some t
  else if t.getLast? = some '\n' ∧ t.dropLast.all (fun c => c ≠ '\n') then
    some t.dropLast
  else none

/-- Match `$` (end of input or one final newline) against the remaining
input. -/
def matchEnd (t : List Char) : Bool :=
  t = [] ∨ t = ['\n']

/-- After the common prefix, match `(\d{14})` and return the group and the
rest. -/
def matchDigits14 (rest : List Char) : Option (List Char × List Char) :=
  let digits := rest.take 14
  if digits.length = 14 ∧ digits.all Char.isDigit then
    some (digits, rest.drop 14)
  else none

/-- Strip the literal `urn:dev:prm:` prefix. -/
def stripUrnPre (s : List Char) : Option (List Char) :=
  if s.take urnPre.length = urnPre then some (s.drop urnPre.length) else none

/-- `xmpp_interface.parse_identifier(identifier)`: `Except.error ()` models
the `bad-request` `XMPPError`; the returned pair is
`(usage_point_id, series_name)` with `series_name = none` for the second
regex. -/
def parse_identifier (s : List Char) :
    Except Unit (List Char × Option (List Char)) :=
  match stripUrnPre s with
  | none => .error ()
  | some rest =>
    match matchDigits14 rest with
    | none => .error ()
    | some (digits, rest2) =>
      match rest2 with
      | '_' :: series =>
        match matchDotStarEnd series with
        | some g => .ok (digits, some g)
        | none => if matchEnd rest2 then .ok (digits, none) else .error ()
      | _ => if matchEnd rest2 then .ok (digits, none) else .error ()

/-- C10, counterexample: a series path containing an interior newline is not
"accepted and returned verbatim" — the first regex cannot match it (`.` does
not cross a newline and `$` only allows one final newline), the second regex
requires the identifier to end after the digits, and `parse_identifier`
raises the bad-request error. -/
theorem C10_counterexample :
    parse_identifier "urn:dev:prm:00000000000000_a\nb".data = .error () := by
  rfl

/-- C10 (amended): for every identifier `urn:dev:prm:` + 14 ASCII digits +
`_` + series, where the series contains no newline character,
`parse_identifier` succeeds and returns the 14-digit usage point id together
with the series returned verbatim — in particular the empty series (a bare
trailing underscore) is accepted and returned as the empty string rather
than failing with bad-request; a series containing a newline is not accepted
(see the counterexample). -/
theorem C10_parse_identifier_accepts_series (digits series : List Char)
    (hlen : digits.length = 14) (hdig : digits.all Char.isDigit = true)
    (hnl : series.all (fun c => c ≠ '\n') = true) :
    parse_identifier (urnPre ++ digits ++ '_' :: series)
      = .ok (digits, some series) := by
  have hstrip : stripUrnPre (urnPre ++ digits ++ '_' :: series)
      = some (digits ++ '_' :: series) := by
    unfold stripUrnPre
    rw [List.append_assoc, List.take_left, List.drop_left, if_pos rfl]
  have hdigits : matchDigits14 (digits ++ '_' :: series)
      = some (digits, '_' :: series) := by
    unfold matchDigits14
    rw [← hlen, List.take_left, List.drop_left, hlen]
    simp [hdig, hlen]
  unfold parse_identifier
  rw [hstrip]
  simp only [hdigits, matchDotStarEnd, hnl, if_true]

/-- Witness for C10 at a concrete input: the claim's empty-series case. -/
theorem C10_witness :
    parse_identifier "urn:dev:prm:09111642617347_".data
      = .ok ("09111642617347".data, some []) := by
  have h := C10_parse_identifier_accepts_series "09111642617347".data []
    (by decide) (by decide) (by decide)
  simpa using h

/-! ## `sgeproxy/publisher.py`: `StreamsFiles.file_records` key rotation

The key loop of `file_records` is

    for key in self.keys:
        try:
            with self.open(path, key["aes_iv"], key["aes_key"]) as data_files:
                ... yield records ...
            return
        except CorruptedFile:
            continue
    raise CorruptedFile(f"Unable to decrypt {path}")

Decrypt-unpack-parse with a single key is abstracted as
`tryKey : κ → Except Unit (List ρ)` (`Except.error ()` models
`CorruptedFile`); the function below returns the list of keys tried, in
order, together with the overall outcome. -/

def file_records {κ ρ : Type} (tryKey : κ → Except Unit (List ρ)) :
    List κ → List κ × Except Unit (List ρ)
  | [] => ([], .error ())
  | k :: rest =>
    match tryKey k with
    | .ok rs => ([k], .ok rs)
    | .error _ =>
      let r := file_records tryKey rest
      (k :: r.1, r.2)

/-- C8: keys are tried in list order; a `CorruptedFile` from one key moves on
to the next key; the first key that succeeds is used and no later key is
tried; only after every key has failed is `CorruptedFile` raised; and in
particular a file readable with key `N` in a key list `[N-1, N]` is
accepted. -/
theorem C8_file_records_key_rotation {κ ρ : Type}
    (tryKey : κ → Except Unit (List ρ)) :
    (∀ (keys : List κ), (∀ k ∈ keys, tryKey k = .error ()) →
        file_records tryKey keys = (keys, .error ()))
    ∧ (∀ (ks1 : List κ) (k : κ) (ks2 : List κ) (rs : List ρ),
        (∀ k' ∈ ks1, tryKey k' = .error ()) → tryKey k = .ok rs →
        file_records tryKey (ks1 ++ k :: ks2) = (ks1 ++ [k], .ok rs))
    ∧ (∀ (kOld kNew : κ) (rs : List ρ),
        tryKey kOld = .error () → tryKey kNew = .ok rs →
        file_records tryKey [kOld, kNew] = ([kOld, kNew], .ok rs)) := by
  refine ⟨?_, ?_, ?_⟩
  · intro keys hall
    induction keys with
    | nil => rfl
    | cons k rest ih =>
      have hk := hall k (List.mem_cons_self _ _)
      have hrest := ih (fun k' hk' => hall k' (List.mem_cons_of_mem _ hk'))
      simp [file_records, hk, hrest]
  · intro ks1 k ks2 rs h1 hk
    induction ks1 with
    | nil => simp [file_records, hk]
    | cons k' rest ih =>
      have hk' := h1 k' (List.mem_cons_self _ _)
      have hrest := ih (fun x hx => h1 x (List.mem_cons_of_mem _ hx))
      simp [file_records, hk', hrest]
  · intro kOld kNew rs hOld hNew
    simp [file_records, hOld, hNew]

/-- Witness for C8 at a concrete input: keys `0` and `1`, where only key `1`
decrypts the file. -/
theorem C8_witness :
    file_records
        (fun k : Nat => if k = 1 then .ok [42] else .error ()) [0, 1]
      = ([0, 1], .ok [42]) :=
  (C8_file_records_key_rotation
      (fun k : Nat => if k = 1 then .ok [42] else .error ())).2.2
    0 1 [42] (by simp) (by simp)

/-! ## `sgeproxy/db.py`: `CheckedWebserviceCall`

`CheckedWebserviceCall` is a context manager:

* `__enter__` stamps `called_at`, adds the `WebservicesCall` row to the
  session and commits (an `IntegrityError` at this commit propagates;
  `__exit__` is then never invoked and the `with` body never runs);
* `__exit__` sets `status = OK` on clean exit, else `status = FAILED` and
  `error = str(ex_val)`, commits, and returns `False` so any exception is
  re-raised.

The session is modelled as the list of snapshots of the call row at each
successful commit, in commit order. -/

/-- `db.WebservicesCallStatus`. -/
inductive WebservicesCallStatus
  | OK
  | FAILED
deriving DecidableEq, Repr

/-- The mutable fields of a `WebservicesCall` row that the scope touches. -/
structure WsCall where
  status : Option WebservicesCallStatus
  error : Option String
deriving DecidableEq, Repr

/-- A freshly constructed `WebservicesCall(...)`: `status` and `error` are
null. -/
def WsCall.new : WsCall := { status := none, error := none }

/-- State threaded through the scope: the call row and the committed
snapshots. -/
structure CheckedCallState where
  call : WsCall
  committed : List WsCall
deriving DecidableEq, Repr

/-- `CheckedWebserviceCall.__enter__`: add the row and commit.  `insertOk`
tells whether the commit satisfies the store's integrity constraints; when it
does not, the commit raises `IntegrityError` (modelled as `.error ()`) and
nothing is persisted. -/
def CheckedWebserviceCall.enter (insertOk : Bool) (st : CheckedCallState) :
    Except Unit CheckedCallState :=
  if insertOk then
    .ok { st with committed := st.committed ++ [st.call] }
  else .error ()

/-- `CheckedWebserviceCall.__exit__`: set the terminal status (and `error`
from the exception text, if any), commit, and return `False` (never suppress
the exception). -/
def CheckedWebserviceCall.exit (exn : Option String) (st : CheckedCallState) :
    CheckedCallState × Bool :=
  let call :=
    match exn with
    | none => { st.call with status := some WebservicesCallStatus.OK }
    | some e =>
      { st.call with status := some WebservicesCallStatus.FAILED,
                     error := some e }
  ({ call := call, committed := st.committed ++ [call] }, false)

/-- Overall outcome of the `with CheckedWebserviceCall(call, db): body`
statement. -/
inductive WithOutcome
  | completed
  | integrityError
  | raised (e : String)
deriving DecidableEq, Repr

/-- Result of running the `with` statement: final state, whether the body
ran, and the outcome. -/
structure WithRun where
  state : CheckedCallState
  bodyRan : Bool
  outcome : WithOutcome
deriving DecidableEq, Repr

/-- Python `with`-statement semantics for `CheckedWebserviceCall` around an
embedded operation `body` (the actual DSO call), which either returns or
raises an exception with text `e`.  When `__enter__` raises, the body is
never executed and `__exit__` is not invoked; otherwise `__exit__` runs and,
returning `False`, re-raises the body's exception if any. -/
def runCheckedWebserviceCall (insertOk : Bool) (body : Except String Unit) :
    WithRun :=
  let init : CheckedCallState := { call := WsCall.new, committed := [] }
  match CheckedWebserviceCall.enter insertOk init with
  | .error _ => { state := init, bodyRan := false,
                  outcome := WithOutcome.integrityError }
  | .ok st1 =>
    match body with
    | .ok _ =>
      let (st2, suppress) := CheckedWebserviceCall.exit none st1
      { state := st2, bodyRan := true,
        outcome := if suppress then WithOutcome.completed
                   else WithOutcome.completed }
    | .error e =>
      let (st2, suppress) := CheckedWebserviceCall.exit (some e) st1
      { state := st2, bodyRan := true,
        outcome := if suppress then WithOutcome.completed
                   else WithOutcome.raised e }

/-- C1: within the guarded-call scope, the row is committed (with null
status) before the body runs and the body runs only if the insert-commit
succeeded; when the insert fails the body never runs and nothing is
committed; on success the row reaches `OK`, on an exception `FAILED` with
the exception text, the terminal row is committed in both branches, and the
exception is re-raised; so whenever the body ran, the call row reaches a
terminal (non-null) committed state. -/
theorem C1_checked_webservice_call (insertOk : Bool)
    (body : Except String Unit) :
    ((runCheckedWebserviceCall insertOk body).bodyRan = true ↔
        insertOk = true)
    ∧ (insertOk = false →
        runCheckedWebserviceCall insertOk body
          = { state := { call := WsCall.new, committed := [] },
              bodyRan := false, outcome := WithOutcome.integrityError })
    ∧ (insertOk = true →
        (runCheckedWebserviceCall insertOk body).state.committed.head?
          = some WsCall.new)
    ∧ (insertOk = true → body = .ok () →
        runCheckedWebserviceCall insertOk body
          = { state :=
                { call := { status := some WebservicesCallStatus.OK,
                            error := none },
                  committed :=
                    [WsCall.new,
                     { status := some WebservicesCallStatus.OK,
                       error := none }] },
              bodyRan := true, outcome := WithOutcome.completed })
    ∧ (∀ e, insertOk = true → body = .error e →
        runCheckedWebserviceCall insertOk body
          = { state :=
                { call := { status := some WebservicesCallStatus.FAILED,
                            error := some e },
                  committed :=
                    [WsCall.new,
                     { status := some WebservicesCallStatus.FAILED,
                       error := some e }] },
              bodyRan := true, outcome := WithOutcome.raised e })
    ∧ (insertOk = true →
        (runCheckedWebserviceCall insertOk body).state.call.status ≠ none
        ∧ (runCheckedWebserviceCall insertOk body).state.committed.getLast?
            = some (runCheckedWebserviceCall insertOk body).state.call) := by
  cases insertOk <;> cases body <;>
    simp [runCheckedWebserviceCall, CheckedWebserviceCall.enter,
      CheckedWebserviceCall.exit, WsCall.new]

/-- Witness for C1 at a concrete input: a successful insert followed by a
DSO failure with text `boom`. -/
theorem C1_witness :
    runCheckedWebserviceCall true (.error "boom")
      = { state :=
            { call := { status := some WebservicesCallStatus.FAILED,
                        error := some "boom" },
              committed :=
                [WsCall.new,
                 { status := some WebservicesCallStatus.FAILED,
                   error := some "boom" }] },
          bodyRan := true, outcome := WithOutcome.raised "boom" } :=
  (C1_checked_webservice_call true (.error "boom")).2.2.2.2.1 "boom" rfl rfl

/-! ## `sgeproxy/db.py`: consents and their resolution

A `Consent` row together with its two link tables: `users` models the
`consents_users` association and `usagePoints` the `ConsentUsagePoint` scope
links (in insertion order — `Consent.usage_points.append` adds at the end).
`Db` holds the consent rows (in row order, which orders un-`ORDER BY`-ed
query results) and the `usage_points` table (ids only). -/

structure Consent where
  id : Nat
  isOpen : Bool
  beginsAt : Int
  expiresAt : Int
  users : List String
  usagePoints : List String
deriving DecidableEq, Repr

structure Db where
  consents : List Consent
  usagePoints : List String
deriving DecidableEq, Repr

/-- The three `PermissionError` messages raised by
`User.restricted_consent_for`. -/
inductive PermissionError
  | noConsent      -- "No consent registered for {usage_point}"
  | notYetValid    -- "Consent registered for {usage_point} is not valid yet"
  | noLongerValid  -- "Consent registered for {usage_point} is no longer valid"
deriving DecidableEq, Repr

/-- The first query of `restricted_consent_for`: consents joined to the user
(`consents_users.user_id == bare_jid`) and scoped to the usage point
(`ConsentUsagePoint.usage_point_id == usage_point`). -/
def linkedq (bareJid up : String) (c : Consent) : Bool :=
  decide (bareJid ∈ c.users) && decide (up ∈ c.usagePoints)

/-- `User.restricted_consent_for(session, usage_point, call_date)`: narrow
the scoped query by `call_date >= begins_at`, then `call_date < expires_at`,
failing with the most specific `PermissionError` at the first empty stage;
return the first remaining row. -/
def restricted_consent_for (db : Db) (bareJid up : String) (callDate : Int) :
    Except PermissionError Consent :=
  if (db.consents.filter (linkedq bareJid up)).isEmpty then
    .error PermissionError.noConsent
  else if ((db.consents.filter (linkedq bareJid up)).filter
      (fun c => decide (c.beginsAt ≤ callDate))).isEmpty then
    .error PermissionError.notYetValid
  else
    match ((db.consents.filter (linkedq bareJid up)).filter
        (fun c => decide (c.beginsAt ≤ callDate))).filter
        (fun c => decide (callDate < c.expiresAt)) with
    | [] => .error PermissionError.noLongerValid
    | c :: _ => .ok c

/-- The conjunction of the three query stages, in the nesting order produced
by composing the filters. -/
def validLinked (bareJid up : String) (callDate : Int) (c : Consent) : Bool :=
  decide (callDate < c.expiresAt) && decide (c.beginsAt ≤ callDate)
    && linkedq bareJid up c

theorem q3_eq (db : Db) (u up : String) (d : Int) :
    ((db.consents.filter (linkedq u up)).filter
        (fun c => decide (c.beginsAt ≤ d))).filter
      (fun c => decide (d < c.expiresAt))
      = db.consents.filter (validLinked u up d) := by
  rw [List.filter_filter, List.filter_filter]
  rfl

theorem restricted_error_all_invalid {db : Db} {u up : String} {d : Int}
    {e : PermissionError}
    (h : restricted_consent_for db u up d = .error e) :
    ∀ c ∈ db.consents, validLinked u up d c = false := by
  intro c hc
  by_contra hne
  have hvl : validLinked u up d c = true := by
    cases hq : validLinked u up d c
    · exact absurd hq hne
    · rfl
  have h1 : linkedq u up c = true := by
    have := hvl
    simp only [validLinked, Bool.and_eq_true] at this
    exact this.2
  have h2 : (decide (c.beginsAt ≤ d)) = true := by
    have := hvl
    simp only [validLinked, Bool.and_eq_true] at this
    exact this.1.2
  have h3 : (decide (d < c.expiresAt)) = true := by
    have := hvl
    simp only [validLinked, Bool.and_eq_true] at this
    exact this.1.1
  have hm1 : c ∈ db.consents.filter (linkedq u up) :=
    List.mem_filter.mpr ⟨hc, h1⟩
  have hm2 : c ∈ (db.consents.filter (linkedq u up)).filter
      (fun c => decide (c.beginsAt ≤ d)) :=
    List.mem_filter.mpr ⟨hm1, h2⟩
  have hm3 : c ∈ ((db.consents.filter (linkedq u up)).filter
      (fun c => decide (c.beginsAt ≤ d))).filter
      (fun c => decide (d < c.expiresAt)) :=
    List.mem_filter.mpr ⟨hm2, h3⟩
  unfold restricted_consent_for at h
  rw [if_neg (by simpa [List.isEmpty_iff] using List.ne_nil_of_mem hm1),
    if_neg (by simpa [List.isEmpty_iff] using List.ne_nil_of_mem hm2)] at h
  rcases hq3 : ((db.consents.filter (linkedq u up)).filter
      (fun c => decide (c.beginsAt ≤ d))).filter
      (fun c => decide (d < c.expiresAt)) with _ | ⟨c', t⟩
  · rw [hq3] at hm3; cases hm3
  · rw [hq3] at h; cases h

theorem restricted_of_filter_cons {db : Db} {u up : String} {d : Int}
    {c : Consent} {t : List Consent}
    (h : db.consents.filter (validLinked u up d) = c :: t) :
    restricted_consent_for db u up d = .ok c := by
  have hm3 : c ∈ db.consents.filter (validLinked u up d) := by
    rw [h]; exact List.mem_cons_self _ _
  have hc : c ∈ db.consents := (List.mem_filter.mp hm3).1
  have hvl : validLinked u up d c = true := (List.mem_filter.mp hm3).2
  simp only [validLinked, Bool.and_eq_true] at hvl
  have hm1 : c ∈ db.consents.filter (linkedq u up) :=
    List.mem_filter.mpr ⟨hc, hvl.2⟩
  have hm2 : c ∈ (db.consents.filter (linkedq u up)).filter
      (fun c => decide (c.beginsAt ≤ d)) :=
    List.mem_filter.mpr ⟨hm1, hvl.1.2⟩
  unfold restricted_consent_for
  rw [if_neg (by simpa [List.isEmpty_iff] using List.ne_nil_of_mem hm1),
    if_neg (by simpa [List.isEmpty_iff] using List.ne_nil_of_mem hm2),
    q3_eq, h]

/-- C2: consent resolution over the half-open validity window.  A consent
scoped to the usage point is accepted at an instant equal to `begins_at`
exactly (given the window is non-empty), and rejected at an instant equal to
`expires_at` exactly; and `restricted_consent_for` fails with the most
specific reason: `noConsent` when no scope link exists for the usage point,
`notYetValid` when scope links exist but every scoped consent begins after
the instant, and `noLongerValid` when some scoped consent has begun but
every scoped-and-begun consent has expired at the instant. -/
theorem C2_consent_window_and_reasons :
    (∀ (db : Db) (u up : String) (c : Consent),
        c ∈ db.consents → u ∈ c.users → up ∈ c.usagePoints →
        c.beginsAt < c.expiresAt →
        ∃ c', restricted_consent_for db u up c.beginsAt = .ok c')
    ∧ (∀ (ups : List String) (u up : String) (c : Consent),
        u ∈ c.users → up ∈ c.usagePoints → c.beginsAt ≤ c.expiresAt →
        restricted_consent_for ⟨[c], ups⟩ u up c.expiresAt
          = .error PermissionError.noLongerValid)
    ∧ (∀ (db : Db) (u up : String) (d : Int),
        (∀ c ∈ db.consents, ¬(u ∈ c.users ∧ up ∈ c.usagePoints)) →
        restricted_consent_for db u up d = .error PermissionError.noConsent)
    ∧ (∀ (db : Db) (u up : String) (d : Int) (c0 : Consent),
        c0 ∈ db.consents → u ∈ c0.users → up ∈ c0.usagePoints →
        (∀ c ∈ db.consents, u ∈ c.users → up ∈ c.usagePoints →
          d < c.beginsAt) →
        restricted_consent_for db u up d = .error PermissionError.notYetValid)
    ∧ (∀ (db : Db) (u up : String) (d : Int) (c0 : Consent),
        c0 ∈ db.consents → u ∈ c0.users → up ∈ c0.usagePoints →
        c0.beginsAt ≤ d →
        (∀ c ∈ db.consents, u ∈ c.users → up ∈ c.usagePoints →
          c.beginsAt ≤ d → c.expiresAt ≤ d) →
        restricted_consent_for db u up d
          = .error PermissionError.noLongerValid) := by
  refine ⟨?_, ?_, ?_, ?_, ?_⟩
  · intro db u up c hc hu hup hwindow
    have hvl : validLinked u up c.beginsAt c = true := by
      simp [validLinked, linkedq, hu, hup, hwindow]
    have hm : c ∈ db.consents.filter (validLinked u up c.beginsAt) :=
      List.mem_filter.mpr ⟨hc, hvl⟩
    rcases hq : db.consents.filter (validLinked u up c.beginsAt) with _ | ⟨c', t⟩
    · rw [hq] at hm; cases hm
    · exact ⟨c', restricted_of_filter_cons hq⟩
  · intro ups u up c hu hup hbe
    simp [restricted_consent_for, linkedq, hu, hup, hbe, List.filter]
  · intro db u up d hnone
    have h1 : db.consents.filter (linkedq u up) = [] := by
      apply List.filter_eq_nil.mpr
      intro c hc
      have := hnone c hc
      simp [linkedq]
      intro hu
      exact fun hup => this ⟨hu, hup⟩
    unfold restricted_consent_for
    rw [h1]
    rfl
  · intro db u up d c0 hc0 hu0 hup0 hall
    have hm1 : c0 ∈ db.consents.filter (linkedq u up) :=
      List.mem_filter.mpr ⟨hc0, by simp [linkedq, hu0, hup0]⟩
    have h2 : (db.consents.filter (linkedq u up)).filter
        (fun c => decide (c.beginsAt ≤ d)) = [] := by
      apply List.filter_eq_nil.mpr
      intro c hc
      obtain ⟨hcm, hlk⟩ := List.mem_filter.mp hc
      simp only [linkedq, Bool.and_eq_true, decide_eq_true_eq] at hlk
      have := hall c hcm hlk.1 hlk.2
      simp
      linarith
    unfold restricted_consent_for
    rw [if_neg (by simpa [List.isEmpty_iff] using List.ne_nil_of_mem hm1), h2]
    rfl
  · intro db u up d c0 hc0 hu0 hup0 hbegun hall
    have hm1 : c0 ∈ db.consents.filter (linkedq u up) :=
      List.mem_filter.mpr ⟨hc0, by simp [linkedq, hu0, hup0]⟩
    have hm2 : c0 ∈ (db.consents.filter (linkedq u up)).filter
        (fun c => decide (c.beginsAt ≤ d)) :=
      List.mem_filter.mpr ⟨hm1, by simpa using hbegun⟩
    have h3 : ((db.consents.filter (linkedq u up)).filter
        (fun c => decide (c.beginsAt ≤ d))).filter
        (fun c => decide (d < c.expiresAt)) = [] := by
      apply List.filter_eq_nil.mpr
      intro c hc
      obtain ⟨hcm1, hlk⟩ := List.mem_filter.mp hc
      obtain ⟨hcm, hlk'⟩ := List.mem_filter.mp hcm1
      simp only [linkedq, Bool.and_eq_true, decide_eq_true_eq] at hlk'
      simp only [decide_eq_true_eq] at hlk
      have := hall c hcm hlk'.1 hlk'.2 hlk
      simp
      linarith
    unfold restricted_consent_for
    rw [if_neg (by simpa [List.isEmpty_iff] using List.ne_nil_of_mem hm1),
      if_neg (by simpa [List.isEmpty_iff] using List.ne_nil_of_mem hm2), h3]

/-- Witness for C2 at concrete inputs: a consent for `alice` on usage point
`09111642617347` over the window `[0, 100)`, queried at `begins_at` (the
accepted edge) and at `expires_at` (the rejected edge). -/
theorem C2_witness :
    (∃ c', restricted_consent_for
        ⟨[{ id := 1, isOpen := false, beginsAt := 0, expiresAt := 100,
            users := ["alice@w.lit"], usagePoints := ["09111642617347"] }],
          ["09111642617347"]⟩
        "alice@w.lit" "09111642617347" 0 = .ok c')
    ∧ restricted_consent_for
        ⟨[{ id := 1, isOpen := false, beginsAt := 0, expiresAt := 100,
            users := ["alice@w.lit"], usagePoints := ["09111642617347"] }],
          ["09111642617347"]⟩
        "alice@w.lit" "09111642617347" 100
        = .error PermissionError.noLongerValid := by
  constructor
  · exact C2_consent_window_and_reasons.1
      ⟨[{ id := 1, isOpen := false, beginsAt := 0, expiresAt := 100,
          users := ["alice@w.lit"], usagePoints := ["09111642617347"] }],
        ["09111642617347"]⟩
      "alice@w.lit" "09111642617347" _
      (List.mem_singleton.mpr rfl) (by simp) (by simp) (by norm_num)
  · exact C2_consent_window_and_reasons.2.1 ["09111642617347"]
      "alice@w.lit" "09111642617347" _ (by simp) (by simp) (by norm_num)

/-! ## `sgeproxy/db.py`: `User.consent_for` and its open-consent fallback -/

/-- The filters of the open-consent query in `User.consent_for`:
`consents_users.user_id == bare_jid`, `Consent.is_open`,
`Consent.begins_at <= call_date`, `Consent.expires_at > call_date`. -/
def openPred (bareJid : String) (d : Int) (c : Consent) : Bool :=
  decide (bareJid ∈ c.users) && c.isOpen && decide (c.beginsAt ≤ d)
    && decide (d < c.expiresAt)

/-- `open_consent.usage_points.append(ConsentUsagePoint(usage_point=...))`:
one new scope link, appended at the end. -/
def appendScope (c : Consent) (up : String) : Consent :=
  { c with usagePoints := c.usagePoints ++ [up] }

/-- `UsagePoint.find_or_create(session, usage_point_id)` restricted to the
table of ids: return the table unchanged when the row exists, else add it. -/
def find_or_create (ups : List String) (up : String) : List String :=
  if up ∈ ups then ups else ups ++ [up]

/-- The fallback branch of `consent_for`: take the first consent satisfying
the open-consent query (`query.first()`), append the scope link to it, and
return the updated consent list together with the mutated consent. -/
def openAppend (bareJid : String) (d : Int) (up : String) :
    List Consent → Option (List Consent × Consent)
  | [] => none
  | c :: cs =>
    if openPred bareJid d c then
      some (appendScope c up :: cs, appendScope c up)
    else
      match openAppend bareJid d up cs with
      | none => none
      | some (cs', r) => some (c :: cs', r)

/-- `User.consent_for(session, usage_point, call_date)`: try
`restricted_consent_for`; on `PermissionError` look for a valid open consent
and append a scope link for the usage point (creating the `UsagePoint` row
if absent); else re-raise.  `callDate = none` models calling without the
argument: the default is `now_local()` evaluated once at module import,
passed here as `moduleLoadTime`. -/
def consent_for (moduleLoadTime : Int) (db : Db) (bareJid up : String)
    (callDate : Option Int) : Db × Except PermissionError Consent :=
  let d := callDate.getD moduleLoadTime
  match restricted_consent_for db bareJid up d with
  | .ok c => (db, .ok c)
  | .error e =>
    match openAppend bareJid d up db.consents with
    | some (cs, c) =>
      ({ consents := cs, usagePoints := find_or_create db.usagePoints up },
       .ok c)
    | none => (db, .error e)

theorem openAppend_of_decomp (bareJid : String) (d : Int) (up : String) :
    ∀ (pre : List Consent) (c : Consent) (post : List Consent),
      (∀ x ∈ pre, openPred bareJid d x = false) →
      openPred bareJid d c = true →
      openAppend bareJid d up (pre ++ c :: post)
        = some (pre ++ appendScope c up :: post, appendScope c up) := by
  intro pre
  induction pre with
  | nil =>
    intro c post _ hc
    simp [openAppend, hc]
  | cons x rest ih =>
    intro c post hpre hc
    have hx := hpre x (List.mem_cons_self _ _)
    have hrest := ih c post (fun y hy => hpre y (List.mem_cons_of_mem _ hy)) hc
    simp [openAppend, hx, hrest]

theorem openAppend_decomp (bareJid : String) (d : Int) (up : String) :
    ∀ (cs : List Consent) (cs' : List Consent) (r : Consent),
      openAppend bareJid d up cs = some (cs', r) →
      ∃ pre c post, cs = pre ++ c :: post
        ∧ (∀ x ∈ pre, openPred bareJid d x = false)
        ∧ openPred bareJid d c = true
        ∧ cs' = pre ++ appendScope c up :: post
        ∧ r = appendScope c up := by
  intro cs
  induction cs with
  | nil => intro cs' r h; cases h
  | cons c rest ih =>
    intro cs' r h
    simp only [openAppend] at h
    by_cases hc : openPred bareJid d c = true
    · rw [if_pos hc] at h
      obtain ⟨h1, h2⟩ := Prod.mk.injEq _ _ _ _ ▸ Option.some.injEq _ _ ▸ h
      exact ⟨[], c, rest, rfl, (by intro x hx; cases hx), hc,
        (by simp [← h1]), h2.symm⟩
    · rw [if_neg hc] at h
      rcases hsub : openAppend bareJid d up rest with _ | ⟨cs'', r''⟩
      · rw [hsub] at h; cases h
      · rw [hsub] at h
        obtain ⟨pre, c0, post, hdec, hpre, hc0, hcs'', hr''⟩ := ih cs'' r'' hsub
        have h1 : cs' = c :: cs'' := by
          have := h
          simp only [Option.some.injEq, Prod.mk.injEq] at this
          exact this.1.symm
        have h2 : r = r'' := by
          have := h
          simp only [Option.some.injEq, Prod.mk.injEq] at this
          exact this.2.symm
        refine ⟨c :: pre, c0, post, (by rw [hdec]; rfl), ?_, hc0, ?_,
          h2 ▸ hr''⟩
        · intro x hx
          rcases List.mem_cons.mp hx with hx | hx
          · subst hx
            cases hq : openPred bareJid d x
            · rfl
            · exact absurd hq hc
          · exact hpre x hx
        · rw [h1, hcs'']
          rfl

theorem validLinked_appendScope {u up : String} {d : Int} {c : Consent}
    (hc : openPred u d c = true) :
    validLinked u up d (appendScope c up) = true := by
  simp only [openPred, Bool.and_eq_true, decide_eq_true_eq] at hc
  simp [validLinked, linkedq, appendScope, hc.1.1.1, hc.1.2, hc.2]

/-- C3: when no restricted consent covers the triple but a valid open
consent exists, `consent_for` appends exactly one scope link for the usage
point to the first such open consent (creating the `UsagePoint` row if
absent) and returns that consent; resolving the same triple again afterwards
mutates nothing further and returns the same consent; and the fallback is
the only path that changes the database — on the restricted path and on the
error path the database comes back unchanged. -/
theorem C3_open_consent_fallback (m d : Int) (db : Db) (u up : String) :
    (∀ (e : PermissionError) (pre : List Consent) (c : Consent)
        (post : List Consent),
        restricted_consent_for db u up d = .error e →
        db.consents = pre ++ c :: post →
        (∀ x ∈ pre, openPred u d x = false) →
        openPred u d c = true →
        consent_for m db u up (some d)
          = ({ consents := pre ++ appendScope c up :: post,
               usagePoints := find_or_create db.usagePoints up },
             .ok (appendScope c up)))
    ∧ (∀ (db' : Db) (r : Except PermissionError Consent) (c' : Consent),
        consent_for m db u up (some d) = (db', r) → r = .ok c' →
        consent_for m db' u up (some d) = (db', .ok c'))
    ∧ (∀ (db' : Db) (r : Except PermissionError Consent),
        consent_for m db u up (some d) = (db', r) →
        db' = db
        ∨ ∃ (e : PermissionError) (pre : List Consent) (c : Consent)
            (post : List Consent),
            restricted_consent_for db u up d = .error e
            ∧ db.consents = pre ++ c :: post
            ∧ (∀ x ∈ pre, openPred u d x = false)
            ∧ openPred u d c = true
            ∧ db' = { consents := pre ++ appendScope c up :: post,
                      usagePoints := find_or_create db.usagePoints up }
            ∧ r = .ok (appendScope c up)) := by
  refine ⟨?_, ?_, ?_⟩
  · intro e pre c post herr hdec hpre hc
    simp only [consent_for, Option.getD_some, herr]
    rw [hdec, openAppend_of_decomp u d up pre c post hpre hc]
  · intro db' r c' hrun hok
    rcases hres : restricted_consent_for db u up d with e | c
    case ok =>
      simp only [consent_for, Option.getD_some, hres] at hrun
      obtain ⟨hdb, hr⟩ := Prod.mk.injEq _ _ _ _ ▸ hrun
      subst hdb
      subst hok
      simp only [consent_for, Option.getD_some, hres]
      rw [← hr]
    case error =>
      simp only [consent_for, Option.getD_some, hres] at hrun
      rcases hoa : openAppend u d up db.consents with _ | ⟨cs, cNew⟩
      · rw [hoa] at hrun
        obtain ⟨hdb, hr⟩ := Prod.mk.injEq _ _ _ _ ▸ hrun
        rw [hok] at hr
        cases hr
      · rw [hoa] at hrun
        obtain ⟨hdb, hr⟩ := Prod.mk.injEq _ _ _ _ ▸ hrun
        rw [hok] at hr
        have hcNew : cNew = c' := by
          have := hr
          simp only [Except.ok.injEq] at this
          exact this
        obtain ⟨pre, c0, post, hdec, hpre, hc0, hcs, hcNew'⟩ :=
          openAppend_decomp u d up db.consents cs cNew hoa
        have hall := restricted_error_all_invalid hres
        have hfilter : db'.consents.filter (validLinked u up d)
            = [appendScope c0 up] := by
          have hdbc : db'.consents = pre ++ appendScope c0 up :: post := by
            rw [← hdb, hcs]
          rw [hdbc, List.filter_append]
          have hprefail : pre.filter (validLinked u up d) = [] := by
            apply List.filter_eq_nil.mpr
            intro x hx
            have hxmem : x ∈ db.consents := by
              rw [hdec]; exact List.mem_append_left _ hx
            simp [hall x hxmem]
          have hpostfail : post.filter (validLinked u up d) = [] := by
            apply List.filter_eq_nil.mpr
            intro x hx
            have hxmem : x ∈ db.consents := by
              rw [hdec]
              exact List.mem_append_right _ (List.mem_cons_of_mem _ hx)
            simp [hall x hxmem]
          rw [hprefail, List.nil_append, List.filter_cons,
            if_pos (validLinked_appendScope hc0), hpostfail]
        have hres' : restricted_consent_for db' u up d
            = .ok (appendScope c0 up) :=
          restricted_of_filter_cons hfilter
        simp only [consent_for, Option.getD_some, hres']
        rw [hcNew' ] at hcNew
        rw [hcNew]
  · intro db' r hrun
    rcases hres : restricted_consent_for db u up d with e | c
    case ok =>
      simp only [consent_for, Option.getD_some, hres] at hrun
      obtain ⟨hdb, _⟩ := Prod.mk.injEq _ _ _ _ ▸ hrun
      exact Or.inl hdb.symm
    case error =>
      simp only [consent_for, Option.getD_some, hres] at hrun
      rcases hoa : openAppend u d up db.consents with _ | ⟨cs, cNew⟩
      · rw [hoa] at hrun
        obtain ⟨hdb, _⟩ := Prod.mk.injEq _ _ _ _ ▸ hrun
        exact Or.inl hdb.symm
      · rw [hoa] at hrun
        obtain ⟨hdb, hr⟩ := Prod.mk.injEq _ _ _ _ ▸ hrun
        obtain ⟨pre, c0, post, hdec, hpre, hc0, hcs, hcNew⟩ :=
          openAppend_decomp u d up db.consents cs cNew hoa
        refine Or.inr ⟨e, pre, c0, post, rfl, hdec, hpre, hc0, ?_, ?_⟩
        · rw [← hdb, hcs]
        · rw [← hr, hcNew]

/-- Witness for C3 at concrete inputs: `alice` has only an open consent
valid over `[0, 100)` with no scope link for `09111642617347`; resolving at
`d = 10` appends the single scope link and returns the open consent, and a
second resolution changes nothing. -/
theorem C3_witness :
    consent_for 0
        ⟨[{ id := 7, isOpen := true, beginsAt := 0, expiresAt := 100,
            users := ["alice@w.lit"], usagePoints := [] }], []⟩
        "alice@w.lit" "09111642617347" (some 10)
      = (⟨[{ id := 7, isOpen := true, beginsAt := 0, expiresAt := 100,
             users := ["alice@w.lit"],
             usagePoints := ["09111642617347"] }], ["09111642617347"]⟩,
         .ok { id := 7, isOpen := true, beginsAt := 0, expiresAt := 100,
               users := ["alice@w.lit"],
               usagePoints := ["09111642617347"] })
    ∧ consent_for 0
        ⟨[{ id := 7, isOpen := true, beginsAt := 0, expiresAt := 100,
            users := ["alice@w.lit"],
            usagePoints := ["09111642617347"] }], ["09111642617347"]⟩
        "alice@w.lit" "09111642617347" (some 10)
      = (⟨[{ id := 7, isOpen := true, beginsAt := 0, expiresAt := 100,
             users := ["alice@w.lit"],
             usagePoints := ["09111642617347"] }], ["09111642617347"]⟩,
         .ok { id := 7, isOpen := true, beginsAt := 0, expiresAt := 100,
               users := ["alice@w.lit"],
               usagePoints := ["09111642617347"] }) := by
  have h1 := (C3_open_consent_fallback 0 10
      ⟨[{ id := 7, isOpen := true, beginsAt := 0, expiresAt := 100,
          users := ["alice@w.lit"], usagePoints := [] }], []⟩
      "alice@w.lit" "09111642617347").1
    PermissionError.noConsent [] _ [] (by rfl) rfl
    (by intro x hx; cases hx) (by decide)
  refine ⟨h1, ?_⟩
  exact (C3_open_consent_fallback 0 10
      ⟨[{ id := 7, isOpen := true, beginsAt := 0, expiresAt := 100,
          users := ["alice@w.lit"], usagePoints := [] }], []⟩
      "alice@w.lit" "09111642617347").2.1 _ _ _ h1 rfl

/-! ## `sgeproxy/xmpp_interface.py`: `GetHistory.handle_submit` consent step

`handle_submit` resolves the consent with `user.consent_for(db,
usage_point_id)` — without a `call_date` argument.  The Python default
`call_date=now_local()` was evaluated once, when `sgeproxy/db.py` was
imported, so every request is authorized against that single captured
instant, not against the time the request is handled. -/

def GetHistory.handle_submit_consent (moduleLoadTime : Int) (db : Db)
    (bareJid up : String) : Db × Except PermissionError Consent :=
  consent_for moduleLoadTime db bareJid up none

/-- C5, failing input evaluated on the code: the process imported
`sgeproxy/db.py` at instant `0`; `alice`'s consent for the usage point is
valid over `[-100, 5)`.  A get-history request handled at instant `10`
(after expiry) is nevertheless granted the consent, because the handler's
consent resolution uses the captured default instant `0` — indeed it does
not depend on the handling time at all.  Resolution at the handling instant
`10`, which the claim requires, would have failed with `noLongerValid`. -/
theorem C5_consent_uses_module_load_default :
    GetHistory.handle_submit_consent 0
        ⟨[{ id := 1, isOpen := false, beginsAt := -100, expiresAt := 5,
            users := ["alice@w.lit"], usagePoints := ["09111642617347"] }],
          ["09111642617347"]⟩
        "alice@w.lit" "09111642617347"
      = (⟨[{ id := 1, isOpen := false, beginsAt := -100, expiresAt := 5,
             users := ["alice@w.lit"], usagePoints := ["09111642617347"] }],
           ["09111642617347"]⟩,
         .ok { id := 1, isOpen := false, beginsAt := -100, expiresAt := 5,
               users := ["alice@w.lit"], usagePoints := ["09111642617347"] })
    ∧ ¬((10 : Int) < (5 : Int))
    ∧ restricted_consent_for
        ⟨[{ id := 1, isOpen := false, beginsAt := -100, expiresAt := 5,
            users := ["alice@w.lit"], usagePoints := ["09111642617347"] }],
          ["09111642617347"]⟩
        "alice@w.lit" "09111642617347" 10
      = .error PermissionError.noLongerValid := by
  refine ⟨by rfl, by norm_num, by rfl⟩

/-! ## `sgeproxy/xmpp_interface.py`: `Subscribe.get_or_call_sge_subscription`

`WebservicesCallsSubscriptions.find_existing` joins the
`subscriptions_calls` association (so only rows linked to at least one
subscription are found) and the `webservices_calls` row (for the usage
point), then filters on call type and `expires_at > call_date`; its
`call_date` default is `now_local()` evaluated at module import.
`get_or_call_sge_subscription` reuses a found row without any DSO call;
otherwise it computes `expires_at = min(consent.expires_at, now_local() +
365 days)` (this `now_local()` IS evaluated at call time) and invokes the
DSO subscribe through `CheckedWebserviceCall`, building a new row carrying
the returned `serviceSouscritId`. -/

/-- `db.SubscriptionType`. -/
inductive SubscriptionType
  | CONSUMPTION_IDX
  | CONSUMPTION_CDC_RAW
  | CONSUMPTION_CDC_CORRECTED
  | CONSUMPTION_CDC_ENABLE
  | PRODUCTION_IDX
  | PRODUCTION_CDC_RAW
  | PRODUCTION_CDC_CORRECTED
  | PRODUCTION_CDC_ENABLE
deriving DecidableEq, Repr

/-- A `WebservicesCallsSubscriptions` row together with the joined
information `find_existing` consults: the usage point of its
`webservices_call` and whether any `subscriptions_calls` association row
links it to a subscription. -/
structure WcsRow where
  usagePointId : String
  callType : SubscriptionType
  expiresAt : Int
  callId : Int
  linked : Bool
deriving DecidableEq, Repr

/-- `WebservicesCallsSubscriptions.find_existing(session, usage_point_id,
call_type, call_date)`; `callDate = none` models calling without the
argument (module-import-time default). -/
def WebservicesCallsSubscriptions.find_existing (moduleLoadTime : Int)
    (rows : List WcsRow) (usagePointId : String)
    (callType : SubscriptionType) (callDate : Option Int) : Option WcsRow :=
  let d := callDate.getD moduleLoadTime
  (rows.filter (fun r =>
      r.linked && decide (r.usagePointId = usagePointId)
        && decide (r.callType = callType)
        && decide (d < r.expiresAt))).head?

/-- `Subscribe.get_or_call_sge_subscription`: the returned pair is the
`WebservicesCallsSubscriptions` row used and whether the DSO subscribe was
invoked (through the guarded-call wrapper).  `respServiceSouscritId` is the
`serviceSouscritId` the DSO returns on the subscribe path. -/
def Subscribe.get_or_call_sge_subscription (moduleLoadTime now : Int)
    (rows : List WcsRow) (usagePointId : String)
    (callType : SubscriptionType) (consentExpiresAt : Int)
    (respServiceSouscritId : Int) : WcsRow × Bool :=
  match WebservicesCallsSubscriptions.find_existing moduleLoadTime rows
      usagePointId callType none with
  | some existingCall => (existingCall, false)
  | none =>
    ({ usagePointId := usagePointId, callType := callType,
       expiresAt := min consentExpiresAt (now + 365 * 1440),
       callId := respServiceSouscritId, linked := false }, true)

/-- C4, counterexample: the claim fails on the code in two ways.  (1) A
`WebservicesCallsSubscriptions` row for the pair exists with
`expires_at = 100 > now = 50`, but it is linked to no subscription, so
`find_existing` (which inner-joins the `subscriptions_calls` association)
misses it and a DSO subscribe IS issued.  (2) `find_existing`'s `call_date`
default was captured at module import (50): a linked row already expired at
the invocation time (`expires_at = 60 ≤ now = 70`) is still reused and no
DSO subscribe is issued. -/
theorem C4_counterexample :
    ((Subscribe.get_or_call_sge_subscription 50 50
        [{ usagePointId := "09111642617347",
           callType := SubscriptionType.CONSUMPTION_IDX, expiresAt := 100,
           callId := 7, linked := false }] "09111642617347"
        SubscriptionType.CONSUMPTION_IDX 200 9).2 = true
      ∧ (50 : Int) < 100)
    ∧ (Subscribe.get_or_call_sge_subscription 50 70
        [{ usagePointId := "09111642617347",
           callType := SubscriptionType.CONSUMPTION_IDX, expiresAt := 60,
           callId := 7, linked := true }] "09111642617347"
        SubscriptionType.CONSUMPTION_IDX 200 9
      = ({ usagePointId := "09111642617347",
           callType := SubscriptionType.CONSUMPTION_IDX, expiresAt := 60,
           callId := 7, linked := true }, false)
      ∧ (60 : Int) ≤ 70) := by
  refine ⟨⟨by rfl, by norm_num⟩, ⟨by rfl, by norm_num⟩⟩

/-- C4 (amended): when `find_existing` finds a row — the first
subscription-linked row for `(usage_point, call_type)` whose `expires_at` is
strictly later than the lookup date, which is the `call_date` default
captured at module-import time, not the invocation time — that row is
returned and no DSO subscribe is issued; when no such linked row exists, the
DSO subscribe is invoked (through the guarded-call wrapper) and a new row is
returned with `expires_at = min(consent.expires_at, now + 365 days)` and the
DSO-returned `call_id`. -/
theorem C4_get_or_call_dedup (moduleLoadTime now : Int) (rows : List WcsRow)
    (up : String) (ct : SubscriptionType) (cexp respId : Int) :
    (∀ r, WebservicesCallsSubscriptions.find_existing moduleLoadTime rows
        up ct none = some r →
      Subscribe.get_or_call_sge_subscription moduleLoadTime now rows up ct
          cexp respId = (r, false)
        ∧ r ∈ rows ∧ r.linked = true ∧ r.usagePointId = up
        ∧ r.callType = ct ∧ moduleLoadTime < r.expiresAt)
    ∧ ((∀ r ∈ rows, ¬(r.linked = true ∧ r.usagePointId = up
          ∧ r.callType = ct ∧ moduleLoadTime < r.expiresAt)) →
      Subscribe.get_or_call_sge_subscription moduleLoadTime now rows up ct
          cexp respId
        = ({ usagePointId := up, callType := ct,
             expiresAt := min cexp (now + 365 * 1440),
             callId := respId, linked := false }, true)) := by
  constructor
  · intro r hfind
    have hmem : r ∈ rows.filter (fun r =>
        r.linked && decide (r.usagePointId = up)
          && decide (r.callType = ct)
          && decide (moduleLoadTime < r.expiresAt)) := by
      rcases hq : rows.filter (fun r =>
          r.linked && decide (r.usagePointId = up)
            && decide (r.callType = ct)
            && decide (moduleLoadTime < r.expiresAt)) with _ | ⟨x, t⟩
      · unfold WebservicesCallsSubscriptions.find_existing at hfind
        simp only [Option.getD_none] at hfind
        rw [hq] at hfind
        cases hfind
      · unfold WebservicesCallsSubscriptions.find_existing at hfind
        simp only [Option.getD_none] at hfind
        rw [hq] at hfind
        simp only [List.head?_cons, Option.some.injEq] at hfind
        rw [hq, ← hfind]
        exact List.mem_cons_self _ _
    obtain ⟨hr, hprops⟩ := List.mem_filter.mp hmem
    simp only [Bool.and_eq_true, decide_eq_true_eq] at hprops
    refine ⟨?_, hr, hprops.1.1.1, hprops.1.1.2, hprops.1.2, hprops.2⟩
    unfold Subscribe.get_or_call_sge_subscription
    rw [hfind]
  · intro hnone
    have hq : rows.filter (fun r =>
        r.linked && decide (r.usagePointId = up)
          && decide (r.callType = ct)
          && decide (moduleLoadTime < r.expiresAt)) = [] := by
      apply List.filter_eq_nil.mpr
      intro r hr
      have := hnone r hr
      simp only [Bool.and_eq_true, decide_eq_true_eq]
      intro hcontra
      exact this ⟨hcontra.1.1.1, hcontra.1.1.2, hcontra.1.2, hcontra.2⟩
    have hfind : WebservicesCallsSubscriptions.find_existing moduleLoadTime
        rows up ct none = none := by
      unfold WebservicesCallsSubscriptions.find_existing
      simp only [Option.getD_none]
      rw [hq]
      rfl
    unfold Subscribe.get_or_call_sge_subscription
    rw [hfind]

/-- Witness for C4 at a concrete input: one linked, unexpired row for the
pair is reused without a DSO call. -/
theorem C4_witness :
    Subscribe.get_or_call_sge_subscription 50 50
        [{ usagePointId := "09111642617347",
           callType := SubscriptionType.CONSUMPTION_IDX, expiresAt := 100,
           callId := 7, linked := true }] "09111642617347"
        SubscriptionType.CONSUMPTION_IDX 200 9
      = ({ usagePointId := "09111642617347",
           callType := SubscriptionType.CONSUMPTION_IDX, expiresAt := 100,
           callId := 7, linked := true }, false) :=
  ((C4_get_or_call_dedup 50 50
      [{ usagePointId := "09111642617347",
         callType := SubscriptionType.CONSUMPTION_IDX, expiresAt := 100,
         callId := 7, linked := true }] "09111642617347"
      SubscriptionType.CONSUMPTION_IDX 200 9).1 _ (by rfl)).1

/-! ## `sgeproxy/streams.py`: `R50.records`

The parser asserts the declared `Pas_Publication` is 30 minutes, collects the
`(H, V)` points (skipping points with a missing value), shifts each timestamp
from end-of-interval to start-of-interval by subtracting the declared step,
and — when at least one period can be formed — asserts that the median of
`periods` is the declared step, where the source computes

    periods = [j - i for i in datetimes[:-1] for j in datetimes[1:]]

over the sorted timestamps: a CARTESIAN PRODUCT of pairs, not the deltas of
consecutive entries.  Timestamps are Int minutes, so
`int(p.total_seconds() / 60)` is the exact minute difference. -/

/-- Stable insertion into a sorted list (used to model Python `sorted`,
kernel-computably). -/
def insertSorted (x : Int) : List Int → List Int
  | [] => [x]
  | y :: ys => if x ≤ y then x :: y :: ys else y :: insertSorted x ys

/-- Python `sorted` on integers. -/
def sortInts (l : List Int) : List Int := l.foldr insertSorted []

/-- Twice `statistics.median`: the median of integer data (middle element of
the sorted data for an odd count, mean of the two middle elements for an
even count) is an integer or a half-integer, so its double represents it
exactly while keeping the computation in `Int`; a comparison
`median == x` of the source is `medianTimes2 = 2 * x` here. -/
def medianTimes2 (l : List Int) : Int :=
  let s := sortInts l
  if s.length % 2 = 1 then 2 * s.getD (s.length / 2) 0
  else s.getD (s.length / 2 - 1) 0 + s.getD (s.length / 2) 0

/-- One `<PDC>` element of an R50 file: end-of-interval timestamp `H`,
optional value `V`, caution flag `IV` (only logged by the parser). -/
structure R50Pdc where
  h : Int
  v : Option Int
  iv : Int
deriving DecidableEq, Repr

/-- `R50.records` for one `<PRM>` element with usage point `prm`, declared
step `pasPublication` (minutes) and points `pdcs`.  `Except.error` models an
`AssertionError`. -/
def R50.recordsOf (prm : String) (pasPublication : Int) (pdcs : List R50Pdc) :
    Except String (List (Metadata × Record)) :=
  if pasPublication = 30 then
    let records := pdcs.filterMap
      (fun p => p.v.map (fun v => (p.h - pasPublication, v)))
    let datetimes := sortInts (records.map Prod.fst)
    let periods := datetimes.dropLast.flatMap
      (fun i => (datetimes.drop 1).map (fun j => j - i))
    let out : List (Metadata × Record) := records.map (fun pv =>
      (power_active_raw_meta prm,
       { name := "urn:dev:prm:" ++ prm ++ "_consumption/power/active/raw",
         time := pv.1, unit := some "W", value := some pv.2 }))
    if periods.isEmpty then .ok out
    else if medianTimes2 periods = 2 * pasPublication then .ok out
    else .error "assert period_median == period_minutes"
  else .error "assert period_minutes == 30"

/-- Modelled from the spec: twice the median of the deltas between
CONSECUTIVE sorted sample timestamps — the quantity the claim says the
parser checks against the declared step. -/
def consecutiveDeltasMedianTimes2 (l : List Int) : Int :=
  medianTimes2 (List.zipWith (fun j i => j - i) l.tail l)

/-- C7, failing input evaluated on the code: six samples whose end-stamped
times are minutes `[30, 31, 32, 62, 120, 179]` under a declared step of 30
minutes.  After the start-of-interval shift the sorted timestamps are
`[0, 1, 2, 32, 90, 149]`; the consecutive deltas are `[1, 1, 30, 58, 59]`
with median exactly 30, so by the claim the assertion must pass.  The code,
however, takes the median of the cartesian list
`[j - i for i in datetimes[:-1] for j in datetimes[1:]]` (which is 2 here)
and fails its assertion.  The first conjunct also exhibits the (correct)
30-minute end-to-start shift on a well-formed input. -/
theorem C7_r50_median_cartesian_not_consecutive :
    R50.recordsOf "09111642617347" 30
        [⟨30, some 11, 0⟩, ⟨60, some 12, 0⟩, ⟨90, some 13, 0⟩]
      = .ok [(power_active_raw_meta "09111642617347",
              { name := "urn:dev:prm:09111642617347_consumption/power/active/raw",
                time := 0, unit := some "W", value := some 11 }),
             (power_active_raw_meta "09111642617347",
              { name := "urn:dev:prm:09111642617347_consumption/power/active/raw",
                time := 30, unit := some "W", value := some 12 }),
             (power_active_raw_meta "09111642617347",
              { name := "urn:dev:prm:09111642617347_consumption/power/active/raw",
                time := 60, unit := some "W", value := some 13 })]
    ∧ consecutiveDeltasMedianTimes2 (sortInts [0, 1, 2, 32, 90, 149]) = 2 * 30
    ∧ R50.recordsOf "09111642617347" 30
        [⟨30, some 1, 0⟩, ⟨31, some 2, 0⟩, ⟨32, some 3, 0⟩,
         ⟨62, some 4, 0⟩, ⟨120, some 5, 0⟩, ⟨179, some 6, 0⟩]
      = .error "assert period_median == period_minutes" := by
  refine ⟨by rfl, by decide, by rfl⟩

/-! ## `sgeproxy/streams.py`: `R171.records`

The parser walks the `serieMesuresDatees` elements.  Per series it maps the
direction (`CONS`/`PROD`), lowercases the temporal class, maps
`typeCalendrier` (`"D"` → `distributor`, else `provider`), picks the record
name and metadata from `grandeurPhysique`/`unite` (skipping unhandled
physical quantities), asserts the series unit equals the metadata unit, and
yields one per-class record per `mesureDatee`.  Alongside, it accumulates
per usage point and instant three derived records (apparent-power max,
active-power max, energy index sum) fed only by distributor-calendar
consumption series, and yields every derived record with a non-null value
after all series.  Both accumulator dict levels iterate in insertion
order. -/

/-- Python `str.lower()` (ASCII; the temporal-class codes are ASCII). -/
def pyLower (s : String) : String := String.mk (s.data.map Char.toLower)

/-- One `mesureDatee` element (`dateFin`, `valeur`). -/
structure R171Mesure where
  dateFin : Int
  valeur : Int
deriving DecidableEq, Repr

/-- One `serieMesuresDatees` element, with the fields `R171.records`
reads. -/
structure R171Series where
  prmId : String
  grandeurMetier : String
  grandeurPhysique : String
  unite : String
  codeClasseTemporelle : String
  typeCalendrier : String
  mesures : List R171Mesure
deriving DecidableEq, Repr

/-- The three accumulator slots `computed_records[usage_point][time]`, in
their dict insertion order (`power/apparent/max`, `power/active/max`,
`energy/active/index`). -/
structure R171Slots where
  pmaxApp : Metadata × Record
  pmaxAct : Metadata × Record
  ea : Metadata × Record
deriving DecidableEq, Repr

/-- Association-list lookup modelling Python `d[k]` /
`k in d` (dicts iterate in insertion order). -/
def alookup {κ ν : Type} [DecidableEq κ] (k : κ) : List (κ × ν) → Option ν
  | [] => none
  | (k', v) :: rest => if k' = k then some v else alookup k rest

/-- Association-list write modelling Python `d[k] = v` (replaces the
existing entry, else appends at the end, preserving insertion order). -/
def aset {κ ν : Type} [DecidableEq κ] (k : κ) (v : ν) :
    List (κ × ν) → List (κ × ν)
  | [] => [(k, v)]
  | (k', v') :: rest =>
    if k' = k then (k', v) :: rest else (k', v') :: aset k v rest

/-- The fresh accumulator slots for `(usage_point, time)`: the three derived
records with null unit and value. -/
def initSlots (prm : String) (time : Int) : R171Slots :=
  { pmaxApp := (pmax_meta prm,
      { name := "urn:dev:prm:" ++ prm ++ "_consumption/power/apparent/max",
        time := time, unit := none, value := none }),
    pmaxAct := (pmax_active_meta prm,
      { name := "urn:dev:prm:" ++ prm ++ "_consumption/power/active/max",
        time := time, unit := none, value := none }),
    ea := (ea_meta prm,
      { name := "urn:dev:prm:" ++ prm ++ "_consumption/energy/active/index",
        time := time, unit := none, value := none }) }

/-- The max-accumulating slot update (`power/apparent/max` and
`power/active/max` branches): fill a null unit, assert it against the slot
metadata's unit, and keep the larger value. -/
def updMax (unit : String) (value : Int) :
    Metadata × Record → Except String (Metadata × Record) :=
  fun mr =>
    let (meta, record) := mr
    let record :=
      if record.unit = none then { record with unit := some unit } else record
    if record.unit = some meta.unit then
      let record :=
        match record.value with
        | none => { record with value := some value }
        | some v =>
          if v < value then { record with value := some value } else record
      .ok (meta, record)
    else .error "assert record.unit == meta.measurement.unit.value"

/-- The sum-accumulating slot update (`energy/active/index` branch): fill a
null unit, assert it, and add the value. -/
def updSum (unit : String) (value : Int) :
    Metadata × Record → Except String (Metadata × Record) :=
  fun mr =>
    let (meta, record) := mr
    let record :=
      if record.unit = none then { record with unit := some unit } else record
    if record.unit = some meta.unit then
      let record :=
        match record.value with
        | none => { record with value := some value }
        | some v => { record with value := some (v + value) }
      .ok (meta, record)
    else .error "assert record.unit == meta.measurement.unit.value"

/-- The accumulator-update part of the measurement loop body (everything
after the per-class `yield`): ensure the `computed_records` entries exist,
then — only for distributor-calendar consumption series — dispatch on the
series metadata to the matching slot update. -/
def r171Step (prm direction tclassOwner mcode unit : String) (meta : Metadata)
    (time value : Int)
    (computed : List (String × List (Int × R171Slots))) :
    Except String (List (String × List (Int × R171Slots))) :=
  let byTime := (alookup prm computed).getD []
  let byTime :=
    if alookup time byTime = none then aset time (initSlots prm time) byTime
    else byTime
  let computed := aset prm byTime computed
  if tclassOwner ≠ "distributor" then .ok computed
  else if direction ≠ "consumption" then .ok computed
  else
    let slots := (alookup time byTime).getD (initSlots prm time)
    if meta = pmax_meta prm then
      match updMax unit value slots.pmaxApp with
      | .ok e =>
        .ok (aset prm (aset time { slots with pmaxApp := e } byTime) computed)
      | .error msg => .error msg
    else if meta = pmax_active_meta prm then
      match updMax unit value slots.pmaxAct with
      | .ok e =>
        .ok (aset prm (aset time { slots with pmaxAct := e } byTime) computed)
      | .error msg => .error msg
    else if mcode = "EA" then
      match updSum unit value slots.ea with
      | .ok e =>
        .ok (aset prm (aset time { slots with ea := e } byTime) computed)
      | .error msg => .error msg
    else .ok computed

/-- The per-series record name and metadata dispatch on
`grandeurPhysique`/`unite`; `none` models the `continue` on unhandled
physical quantities. -/
def r171NameMeta (base mcode unit tOwner tclass prm : String) :
    Except String (Option (String × Metadata)) :=
  if mcode = "PMA" then
    if unit = "VA" then
      .ok (some (base ++ "/power/apparent/max/" ++ tOwner ++ "/" ++ tclass,
        pmax_meta prm))
    else if unit = "W" then
      .ok (some (base ++ "/power/active/max/" ++ tOwner ++ "/" ++ tclass,
        pmax_active_meta prm))
    else .error "Unexpected PMA unit"
  else if mcode = "EA" then
    .ok (some (base ++ "/energy/active/index/" ++ tOwner ++ "/" ++ tclass,
      ea_meta prm))
  else .ok none

/-- Process one `serieMesuresDatees`: map the direction, derive name and
metadata, assert the unit, then yield one per-class record per measurement
while threading the derived-record accumulator. -/
def r171ProcessSeries (s : R171Series)
    (st : List (Metadata × Record) × List (String × List (Int × R171Slots))) :
    Except String
      (List (Metadata × Record) × List (String × List (Int × R171Slots))) := do
  let direction ←
    if s.grandeurMetier = "CONS" then pure "consumption"
    else if s.grandeurMetier = "PROD" then pure "production"
    else Except.error "Unexpected direction"
  let tclass := pyLower s.codeClasseTemporelle
  let tOwner := if s.typeCalendrier = "D" then "distributor" else "provider"
  let base := "urn:dev:prm:" ++ s.prmId ++ "_" ++ direction
  match ← r171NameMeta base s.grandeurPhysique s.unite tOwner tclass s.prmId
      with
  | none => pure st
  | some (name, meta) =>
    if s.unite = meta.unit then
      s.mesures.foldlM
        (fun acc mes => do
          let record : Record :=
            { name := name, time := mes.dateFin, unit := some s.unite,
              value := some mes.valeur }
          let computed' ← r171Step s.prmId direction tOwner
            s.grandeurPhysique s.unite meta mes.dateFin mes.valeur acc.2
          pure (acc.1 ++ [(meta, record)], computed'))
        st
    else Except.error "assert unit == meta.measurement.unit.value"

/-- `R171.records(self)` over the parsed series: all per-class records in
emission order, followed by every derived record with a non-null value, in
accumulator insertion order. -/
def R171.records (series : List R171Series) :
    Except String (List (Metadata × Record)) := do
  let (out, computed) ← series.foldlM (fun st s => r171ProcessSeries s st)
    ([], [])
  pure (out ++ computed.flatMap (fun pc =>
    pc.2.flatMap (fun ts =>
      [ts.2.pmaxApp, ts.2.pmaxAct, ts.2.ea].filterMap (fun mr =>
        if mr.2.value ≠ none then some mr else none))))

/-- C6: an R171 input with, for usage point `09111642617347` and instant
`T = 0`, exactly three distributor temporal classes (`HPH`, `HPB`, `HCH`) of
energy-active-index consumption with values 100, 200 and 300, parses to the
three per-class records followed by exactly one derived
`…_consumption/energy/active/index` record at `T` whose value is
`600 = 100 + 200 + 300` (the two power-max accumulators stay null and are
not emitted). -/
theorem C6_r171_derived_total :
    R171.records
        [{ prmId := "09111642617347", grandeurMetier := "CONS",
           grandeurPhysique := "EA", unite := "Wh",
           codeClasseTemporelle := "HPH", typeCalendrier := "D",
           mesures := [{ dateFin := 0, valeur := 100 }] },
         { prmId := "09111642617347", grandeurMetier := "CONS",
           grandeurPhysique := "EA", unite := "Wh",
           codeClasseTemporelle := "HPB", typeCalendrier := "D",
           mesures := [{ dateFin := 0, valeur := 200 }] },
         { prmId := "09111642617347", grandeurMetier := "CONS",
           grandeurPhysique := "EA", unite := "Wh",
           codeClasseTemporelle := "HCH", typeCalendrier := "D",
           mesures := [{ dateFin := 0, valeur := 300 }] }]
      = .ok
        [(ea_meta "09111642617347",
          { name :=
              "urn:dev:prm:09111642617347_consumption/energy/active/index/distributor/hph",
            time := 0, unit := some "Wh", value := some 100 }),
         (ea_meta "09111642617347",
          { name :=
              "urn:dev:prm:09111642617347_consumption/energy/active/index/distributor/hpb",
            time := 0, unit := some "Wh", value := some 200 }),
         (ea_meta "09111642617347",
          { name :=
              "urn:dev:prm:09111642617347_consumption/energy/active/index/distributor/hch",
            time := 0, unit := some "Wh", value := some 300 }),
         (ea_meta "09111642617347",
          { name :=
              "urn:dev:prm:09111642617347_consumption/energy/active/index",
            time := 0, unit := some "Wh", value := some 600 })] := by
  rfl

end SgeProxy
